import Mathlib

/-!
Shallow embedding of the ForecastAggregation order/aggregation pipeline
(Go sources: internal/service/order.go, internal/service/aggregation.go,
internal/service/market.go, internal/repository/order.go, the Kalshi
trading adapter, and the chain executor ReleaseFunds).

Conventions:
* Go `float64` money/price values are modelled as `ℚ` (the code only
  compares, adds, multiplies and divides them).
* Go `time.Time` values are modelled as unix seconds (`ℤ`).
* External cryptography (keccak/ECDSA recovery), HTTP venue calls, the
  fiat converter and the chain RPC are dependencies of the repository,
  not its code; they enter the model as explicit function parameters of
  an environment record.  Everything written in the repository itself is
  translated directly.
-/

deriving instance DecidableEq for Except

namespace ForecastAgg

/-- ASCII uppercase of a string, modelling `strings.ToUpper` on ASCII data. -/
def goToUpper (s : String) : String := ⟨s.data.map Char.toUpper⟩

/-- ASCII lowercase of a string, modelling `strings.ToLower` on ASCII data. -/
def goToLower (s : String) : String := ⟨s.data.map Char.toLower⟩

/-- Drop leading and trailing `' '` characters, modelling `strings.Trim(s, " ")`. -/
def trimSpacesList (l : List Char) : List Char :=
  (l.dropWhile (· = ' ')).rdropWhile (· = ' ')

/-- `strings.Trim(s, " ")` on strings. -/
def goTrimSpaces (s : String) : String := ⟨trimSpacesList s.data⟩

/-- The character class of Go `unicode.IsSpace`, restricted to ASCII
(`strings.TrimSpace` trims these). -/
def isGoSpace (c : Char) : Bool :=
  c = ' ' || c = '\t' || c = '\n' || c = '\x0b' || c = '\x0c' || c = '\r'

/-- `strings.TrimSpace` on ASCII data. -/
def goTrimSpace (s : String) : String :=
  ⟨(s.data.dropWhile isGoSpace).rdropWhile isGoSpace⟩

/-- `strings.TrimPrefix(s, "0x")`. -/
def drop0x (s : String) : String :=
  match s.data with
  | '0' :: 'x' :: rest => ⟨rest⟩
  | _ => s

/-- `strings.Split(s, ":")`: the colon-separated parts (always at least
one part). -/
def splitOnColon : List Char → List (List Char)
  | [] => [[]]
  | c :: rest =>
    if c = ':' then [] :: splitOnColon rest
    else
      match splitOnColon rest with
      | [] => [[c]]
      | w :: ws => (c :: w) :: ws

/-- The colon-separated parts of a string, as strings. -/
def colonParts (s : String) : List String :=
  (splitOnColon s.data).map fun l => ⟨l⟩

/-- Value of one hexadecimal digit, case-insensitive (`encoding/hex`). -/
def hexDigitVal (c : Char) : Option Nat :=
  if '0' ≤ c ∧ c ≤ '9' then some (c.toNat - '0'.toNat)
  else if 'a' ≤ c ∧ c ≤ 'f' then some (c.toNat - 'a'.toNat + 10)
  else if 'A' ≤ c ∧ c ≤ 'F' then some (c.toNat - 'A'.toNat + 10)
  else none

/-- Decode a hex character list into bytes; `none` on an odd length or a
non-hex character, modelling `hex.DecodeString`'s error cases. -/
def hexDecodeList : List Char → Option (List Nat)
  | [] => some []
  | [_] => none
  | c₁ :: c₂ :: rest =>
    match hexDigitVal c₁, hexDigitVal c₂, hexDecodeList rest with
    | some h, some l, some bs => some ((h * 16 + l) :: bs)
    | _, _, _ => none

/-- `hex.DecodeString` on strings. -/
def goHexDecode (s : String) : Option (List Nat) := hexDecodeList s.data

/-- Fold a digit list into its base-10 value; `none` if empty or non-digit. -/
def parseDigits : List Char → Option Nat
  | [] => none
  | l =>
    if l.all (fun c => '0' ≤ c ∧ c ≤ '9') then
      some (l.foldl (fun acc c => acc * 10 + (c.toNat - '0'.toNat)) 0)
    else none

/-- `strconv.ParseInt(s, 10, 64)`: optional sign, base-10 digits, must fit
in a signed 64-bit integer. -/
def goParseInt64 (s : String) : Option Int :=
  let core : List Char → Bool × List Char := fun l =>
    match l with
    | '-' :: rest => (true, rest)
    | '+' :: rest => (false, rest)
    | l => (false, l)
  let (neg, ds) := core s.data
  match parseDigits ds with
  | none => none
  | some n =>
    let v : Int := if neg then -(n : Int) else (n : Int)
    if v < -(2 ^ 63) ∨ 2 ^ 63 - 1 < v then none else some v

/-- `strconv.ParseUint(s, 10, 64)`: base-10 digits fitting in 64 unsigned bits. -/
def goParseUint64 (s : String) : Option Nat :=
  match parseDigits s.data with
  | none => none
  | some n => if 2 ^ 64 - 1 < n then none else some n

/-- Go's `int(f)` conversion of a float to an integer: truncation toward zero. -/
def goTruncToInt (q : ℚ) : Int := if 0 ≤ q then ⌊q⌋ else ⌈q⌉

/-- Go's `math.Round`: round half away from zero. -/
def goRound (q : ℚ) : Int := if 0 ≤ q then ⌊q + 1/2⌋ else -⌊-q + 1/2⌋

/-- Case-insensitive string equality, modelling `strings.EqualFold` on ASCII. -/
def equalFold (a b : String) : Bool := goToLower a = goToLower b

/-! ## Data model rows (internal/model) -/

/-- One `event_odds` row as consumed by `pickBestOdds`
(fields of `model.EventOdds` that the order service reads). -/
structure EventOdds where
  eventID : Nat
  platformID : Nat
  optionName : String
  optionType : String
  price : ℚ
deriving DecidableEq, Repr

/-! ## pickBestOdds (internal/service/order.go) -/

/-- Match test from the loop body of `pickBestOdds`: the option name equals
the bet option after space-trimming and uppercasing, or the normalized
option type corresponds to a YES/NO bet. -/
def oddsMatches (betUpper : String) (o : EventOdds) : Bool :=
  let optionUpper := goToUpper (goTrimSpaces o.optionName)
  optionUpper = betUpper
    || (betUpper = "YES" && o.optionType = "win")
    || (betUpper = "NO" && o.optionType = "lose")

/-- Accumulator loop of `pickBestOdds`: keep the first row seen, replace it
only on a strictly higher price. -/
def pickBestLoop (betUpper : String) :
    List EventOdds → Option (Nat × ℚ × String) → Option (Nat × ℚ × String)
  | [], acc => acc
  | o :: rest, acc =>
    if oddsMatches betUpper o then
      match acc with
      | none => pickBestLoop betUpper rest (some (o.platformID, o.price, o.optionName))
      | some (pid, best, name) =>
        if best < o.price then
          pickBestLoop betUpper rest (some (o.platformID, o.price, o.optionName))
        else
          pickBestLoop betUpper rest (some (pid, best, name))
    else pickBestLoop betUpper rest acc

/-- `pickBestOdds` (order.go): select platform, price and original option
name of the highest-priced matching odds row; error when the trimmed bet
option is empty or no row matches. -/
def pickBestOdds (odds : List EventOdds) (betOption : String) :
    Except String (Nat × ℚ × String) :=
  let bet := goTrimSpaces betOption
  if bet = "" then .error "betOption must not be empty"
  else
    match pickBestLoop (goToUpper bet) odds none with
    | none => .error "no odds row matches the bet option"
    | some r => .ok r

/-- `clampOddsForSign` (order.go): 100% → 0.99 and 0% → 0.01; everything
else is returned unchanged. -/
def clampOddsForSign (price : ℚ) : ℚ :=
  if 1 ≤ price then 99 / 100
  else if price ≤ 0 then 1 / 100
  else price

/-! ## Persistent rows and the database state -/

/-- A `contract_events` row (`model.ContractEvent`). -/
structure ContractEventR where
  eventType : String
  contractOrderID : Option String
  orderUUID : Option String
  userWallet : String
  depositAmount : Option ℚ
  fundCurrency : Option String
  txHash : String
  processed : Bool
  processedAt : Option Int
  refundedAt : Option Int
deriving DecidableEq, Repr

/-- An `events` row (`model.Event`), restricted to the fields the order and
result-sync services read. -/
structure EventR where
  id : Nat
  eventUUID : String
  title : String
  platformID : Nat
  platformEventID : String
  startTime : Int
  endTime : Int
  result : Option String
  status : String
deriving DecidableEq, Repr

/-- An `event_platform_links` row (`model.EventPlatformLink`). -/
structure LinkR where
  canonicalEventID : Nat
  eventID : Nat
  platformID : Nat
deriving DecidableEq, Repr

/-- An `orders` row (`model.Order`), restricted to the fields the order
service writes and reads. -/
structure OrderR where
  orderUUID : String
  userWallet : String
  eventID : Nat
  platformID : Nat
  platformOrderID : Option String
  betOption : String
  betAmount : ℚ
  fundCurrency : String
  lockedOdds : ℚ
  expectedProfit : ℚ
  actualProfit : ℚ
  status : String
deriving DecidableEq, Repr

/-- An `event_odds` row as stored (`model.EventOdds` with its upsert key). -/
structure OddsTableRow where
  eventID : Nat
  uniqueEventPlatform : String
  platformID : Nat
  optionName : String
  optionType : String
  price : ℚ
deriving DecidableEq, Repr

/-- The persistent store: the tables touched by the order service and the
result-sync sweep. -/
structure DB where
  contractEvents : List ContractEventR
  orders : List OrderR
  events : List EventR
  links : List LinkR
  odds : List OddsTableRow
deriving DecidableEq, Repr

/-! ## Repository reads and writes (internal/repository) -/

/-- `GetUnprocessedByContractOrderID`: first row with this contract order id
that is a `DepositSuccess`, unprocessed and not refunded. -/
def getUnprocessedByContractOrderID (db : DB) (id : String) : Option ContractEventR :=
  db.contractEvents.find? fun ce =>
    decide (ce.contractOrderID = some id ∧ ce.processed = false ∧
      ce.eventType = "DepositSuccess" ∧ ce.refundedAt = none)

/-- `GetContractEventByContractOrderID`: first `DepositSuccess` row with this
contract order id, regardless of flags. -/
def getContractEventByContractOrderID (db : DB) (id : String) : Option ContractEventR :=
  db.contractEvents.find? fun ce =>
    decide (ce.contractOrderID = some id ∧ ce.eventType = "DepositSuccess")

/-- `MarkRefundedByContractOrderID`: set `refunded_at` on every row carrying
this contract order id. -/
def markRefundedByContractOrderID (db : DB) (id : String) (now : Int) : DB :=
  { db with contractEvents := db.contractEvents.map fun ce =>
      if ce.contractOrderID = some id then { ce with refundedAt := some now } else ce }

/-- `UpdateProcessedByContractOrderID`: set `order_uuid`, `processed` and
`processed_at` on every row carrying this contract order id. -/
def updateProcessedByContractOrderID (db : DB) (id orderUUID : String) (now : Int) : DB :=
  { db with contractEvents := db.contractEvents.map fun ce =>
      if ce.contractOrderID = some id then
        { ce with orderUUID := some orderUUID, processed := true, processedAt := some now }
      else ce }

/-- `GetEventByUUID`. -/
def getEventByUUID (db : DB) (uuid : String) : Option EventR :=
  db.events.find? fun e => decide (e.eventUUID = uuid)

/-- `GetEventByID`. -/
def getEventByID (db : DB) (id : Nat) : Option EventR :=
  db.events.find? fun e => decide (e.id = id)

/-- `ListLinksByCanonicalID`. -/
def listLinksByCanonicalID (db : DB) (cid : Nat) : List LinkR :=
  db.links.filter fun l => decide (l.canonicalEventID = cid)

/-- `GetCanonicalIDByEventID`: first link row for this event id. -/
def getCanonicalIDByEventID (db : DB) (eid : Nat) : Option Nat :=
  (db.links.find? fun l => decide (l.eventID = eid)).map LinkR.canonicalEventID

/-- `GetOddsByEventIDs`: all stored odds rows of the given events, read into
the shape `pickBestOdds` consumes. -/
def getOddsByEventIDs (db : DB) (ids : List Nat) : List EventOdds :=
  (db.odds.filter fun o => ids.contains o.eventID).map fun o =>
    ⟨o.eventID, o.platformID, o.optionName, o.optionType, o.price⟩

/-- One row handed to `UpsertOddsForEvents` (repository `OddsRow`). -/
structure OddsRow where
  eventID : Nat
  platformID : Nat
  platformEventID : String
  optionName : String
  price : ℚ
deriving DecidableEq, Repr

/-- `UpsertOddsForEvents`: insert each row keyed by
`"<platform>_<platform_event>_<option>"`; on conflict update only price and
option name. -/
def upsertOddsForEvents (db : DB) (rows : List OddsRow) : DB :=
  rows.foldl (fun acc row =>
    let key := toString row.platformID ++ "_" ++ row.platformEventID ++ "_" ++ row.optionName
    if acc.odds.any fun o => decide (o.uniqueEventPlatform = key) then
      { acc with odds := acc.odds.map fun o =>
          if o.uniqueEventPlatform = key then
            { o with price := row.price, optionName := row.optionName }
          else o }
    else
      { acc with odds := acc.odds ++
          [⟨row.eventID, key, row.platformID, row.optionName, "", row.price⟩] }) db

/-! ## Error taxonomy

Each constructor corresponds to one `fmt.Errorf` site of the Go order
service, so theorems can distinguish the failure classes. -/

/-- Failure cases of `verifyOrderSignature`, one per `fmt.Errorf` site. -/
inductive VerifyError
  | missingFields
  | invalidSigHex
  | recoveryFailed
  | signerMismatch
  | malformedMessage
  | invalidExpiry
  | expired
deriving DecidableEq, Repr

/-- Failure cases of prepare/place, one per `fmt.Errorf` site. -/
inductive OrderError
  | missingParams
  | alreadyPlaced
  | alreadyRefunded
  | depositNotFound
  | signatureInvalid (e : VerifyError)
  | amountMismatch
  | invalidDepositAmount
  | invalidEventRef
  | eventLookupFailed
  | noOddsAvailable
  | pickFailed (msg : String)
  | fiatConversionFailed (msg : String)
  | venueError (msg : String)
  | createOrderFailed
deriving DecidableEq, Repr

/-! ## Signature verification (order.go `verifyOrderSignature`) -/

/-- The 65-byte copy with the recovery id normalized: wallets return
`v ∈ {27, 28}`, go-ethereum expects `{0, 1}`. -/
def normalizeSigV (sig : List Nat) : List Nat :=
  let c := sig.take 65
  let v := c.getLastD 0
  c.dropLast ++ [if v = 27 ∨ v = 28 then v - 27 else v]

/-- `verifyOrderSignature`: `recover` abstracts the go-ethereum
`personal_sign` pipeline (prefixed keccak hash, `SigToPub`,
`PubkeyToAddress`), taking the message and the normalized 65-byte
signature and returning the recovered address when recovery succeeds. -/
def verifyOrderSignature (now : Int) (recover : String → List Nat → Option String)
    (userWallet messageToSign signatureHex : String) : Except VerifyError Unit :=
  if userWallet = "" ∨ messageToSign = "" ∨ signatureHex = "" then
    .error .missingFields
  else
    match goHexDecode (drop0x signatureHex) with
    | none => .error .invalidSigHex
    | some sig =>
      if sig.length < 65 then .error .invalidSigHex
      else
        match recover messageToSign (normalizeSigV sig) with
        | none => .error .recoveryFailed
        | some recovered =>
          if equalFold recovered userWallet = false then .error .signerMismatch
          else
            let parts := colonParts messageToSign
            if parts.length < 6 then .error .malformedMessage
            else
              match goParseInt64 (parts.getLastD "") with
              | none => .error .invalidExpiry
              | some expiresAt =>
                if expiresAt < now then .error .expired else .ok ()

/-! ## The order service environment (external collaborators) -/

/-- One live odds row returned by a venue adapter (`interfaces.LiveOddsRow`). -/
structure LiveOddsRow where
  platformID : Nat
  optionName : String
  price : ℚ
deriving DecidableEq, Repr

/-- Per-link fetched odds (`linkOdds` in order.go). -/
structure LinkOdds where
  eventID : Nat
  platformID : Nat
  platformEventID : String
  rows : List LiveOddsRow
deriving DecidableEq, Repr

/-- The request handed to a venue trading adapter
(`interfaces.PlaceOrderRequest`). -/
structure AdapterPlaceRequest where
  platformID : Nat
  platformEventID : String
  betOption : String
  betAmount : ℚ
  lockedOdds : ℚ
deriving DecidableEq, Repr

/-- External collaborators of the order service: the clock, signature
recovery, the per-platform live odds fetchers (the outer `Option` models a
nil map), the fiat converter, and the per-platform trading adapters. -/
structure PlaceEnv where
  now : Int
  recover : String → List Nat → Option String
  liveOddsFetchers : Option (Nat → Option (Nat → String → Except String (List LiveOddsRow)))
  fiatConvertToUSD : ℚ → String → Except String ℚ
  tradingAdapters : Option (Nat → Option (AdapterPlaceRequest → Except String String))
  eventRepoPresent : Bool

/-! ## Event resolution and live odds (order.go) -/

/-- Second half of `resolveEventAndLinks`: expand the event to its canonical
group when one exists. -/
def expandEventLinks (db : DB) (event : EventR) :
    EventR × List Nat × List LinkR :=
  let pair :=
    match getCanonicalIDByEventID db event.id with
    | some cid =>
      let ls := listLinksByCanonicalID db cid
      (ls.map LinkR.eventID, ls)
    | none => ([], [])
  let eventIDs := if pair.1 = [] then [event.id] else pair.1
  (event, eventIDs, pair.2)

/-- `resolveEventAndLinks`: resolve by `event_uuid`, falling back to a
numeric canonical id expanded through its first link. -/
def resolveEventAndLinks (db : DB) (eventUUID : String) :
    Except OrderError (EventR × List Nat × List LinkR) :=
  match getEventByUUID db eventUUID with
  | some e => .ok (expandEventLinks db e)
  | none =>
    match goParseUint64 eventUUID with
    | some cid =>
      match listLinksByCanonicalID db cid with
      | [] => .error .invalidEventRef
      | l :: _ =>
        match getEventByID db l.eventID with
        | none => .error .eventLookupFailed
        | some e => .ok (expandEventLinks db e)
    | none => .error .eventLookupFailed

/-- `fetchLiveOddsForEvent`: fan out over the linked venues (or the single
event's venue), skipping failed platforms; fall back to stored odds when
nothing was fetched; error when no odds exist at all. -/
def fetchLiveOddsForEvent (env : PlaceEnv) (db : DB) (event : EventR)
    (eventIDs : List Nat) (links : List LinkR) :
    Except OrderError (List EventOdds × List LinkOdds) :=
  let fetched : List EventOdds × List LinkOdds :=
    match env.liveOddsFetchers with
    | none => ([], [])
    | some fetchers =>
      if links.isEmpty then
        match fetchers event.platformID with
        | none => ([], [])
        | some f =>
          match f event.platformID event.platformEventID with
          | .error _ => ([], [])
          | .ok rows =>
            (rows.map (fun r => ⟨0, r.platformID, r.optionName, "", r.price⟩),
             [⟨event.id, event.platformID, event.platformEventID, rows⟩])
      else
        links.foldl (fun acc l =>
          match getEventByID db l.eventID with
          | none => acc
          | some ev =>
            match fetchers l.platformID with
            | none => acc
            | some f =>
              match f l.platformID ev.platformEventID with
              | .error _ => acc
              | .ok rows =>
                (acc.1 ++ rows.map (fun r => ⟨0, r.platformID, r.optionName, "", r.price⟩),
                 acc.2 ++ [⟨l.eventID, l.platformID, ev.platformEventID, rows⟩]))
          ([], [])
  if fetched.1.isEmpty then
    let stored := getOddsByEventIDs db eventIDs
    if stored.isEmpty then .error .noOddsAvailable
    else .ok (stored, fetched.2)
  else .ok fetched

/-! ## Prepare and place (order.go) -/

/-- `PrepareOrderRequest`. -/
structure PrepareOrderRequest where
  contractOrderID : String
  eventUUID : String
  betOption : String
deriving DecidableEq, Repr

/-- `PrepareOrderResult`. -/
structure PrepareOrderResult where
  lockedOdds : ℚ
  messageToSign : String
  expiresAtSec : Int
deriving DecidableEq, Repr

/-- `PlaceOrderRequest` (frontend body; absent optional fields are the Go
zero values `0` and `""`). -/
structure PlaceOrderRequest where
  contractOrderID : String
  eventUUID : String
  betOption : String
  amount : ℚ
  lockedOdds : ℚ
  messageToSign : String
  signature : String
deriving DecidableEq, Repr

/-- `PlaceOrderResult`. -/
structure PlaceOrderResult where
  orderUUID : String
  platformOrderID : String
  platformID : Nat
  status : String
deriving DecidableEq, Repr

/-- `prepareOrderExpirySec = 300`. -/
def prepareOrderExpirySec : Int := 300

/-- Decimal rendering with six fractional digits, modelling
`fmt.Sprintf("%.6f", x)` (nearest-decimal rounding of the value). -/
def formatQ6 (q : ℚ) : String :=
  let scaled := goRound (q * 1000000)
  let n := scaled.natAbs
  let fpStr := toString (n % 1000000)
  (if scaled < 0 then "-" else "") ++ toString (n / 1000000) ++ "." ++
    (String.mk (List.replicate (6 - fpStr.length) '0') ++ fpStr)

/-- The shared deposit lookup of prepare and place: require an unprocessed,
unrefunded `DepositSuccess`; explain the failure via the full row. -/
def lookupDeposit (db : DB) (contractOrderID : String) : Except OrderError ContractEventR :=
  match getUnprocessedByContractOrderID db contractOrderID with
  | some ce => .ok ce
  | none =>
    match getContractEventByContractOrderID db contractOrderID with
    | some ev =>
      if ev.processed then .error .alreadyPlaced
      else if ev.refundedAt ≠ none then .error .alreadyRefunded
      else .error .depositNotFound
    | none => .error .depositNotFound

/-- `PrepareOrderFromFrontend`: live-quote the event, pick the best odds,
clamp them for the signed message, and return message and expiry.  No
persistent state is touched. -/
def prepareOrderFromFrontend (env : PlaceEnv) (db : DB) (req : PrepareOrderRequest) :
    Except OrderError PrepareOrderResult :=
  if req.contractOrderID = "" ∨ req.eventUUID = "" ∨ req.betOption = "" then
    .error .missingParams
  else
    match lookupDeposit db req.contractOrderID with
    | .error e => .error e
    | .ok _ =>
      match resolveEventAndLinks db req.eventUUID with
      | .error e => .error e
      | .ok (event, eventIDs, links) =>
        match fetchLiveOddsForEvent env db event eventIDs links with
        | .error e => .error e
        | .ok (odds, _) =>
          match pickBestOdds odds req.betOption with
          | .error m => .error (.pickFailed m)
          | .ok (_, bestPrice, _) =>
            let lockedOdds := clampOddsForSign bestPrice
            let expiresAt := env.now + prepareOrderExpirySec
            .ok ⟨lockedOdds,
              "PlaceOrder:" ++ req.contractOrderID ++ ":" ++ req.eventUUID ++ ":" ++
                req.betOption ++ ":" ++ formatQ6 lockedOdds ++ ":" ++ toString expiresAt,
              expiresAt⟩

/-- The fund currency defaulting of place: the contract event's currency,
or `USDC` when absent or empty. -/
def fundCurrencyOf (ce : ContractEventR) : String :=
  match ce.fundCurrency with
  | some c => if c = "" then "USDC" else c
  | none => "USDC"

/-- Step 5 of place: locate the chosen platform's own event row — first by
scanning the links for the best platform, then re-scanning all linked event
ids; fall back to the resolved event. -/
def selectTargetEvent (db : DB) (event : EventR) (eventIDs : List Nat)
    (links : List LinkR) (bestPlatformID : Nat) : EventR :=
  let target1 :=
    match links.findSome? (fun l =>
        if l.platformID = bestPlatformID then getEventByID db l.eventID else none) with
    | some e => e
    | none => event
  if eventIDs.isEmpty then target1
  else
    match eventIDs.findSome? (fun eid =>
        match getEventByID db eid with
        | some e => if e.platformID = bestPlatformID then some e else none
        | none => none) with
    | some e => e
    | none => target1

/-- Step 6 of place: call the trading adapter of the chosen platform when
one is registered; besides the adapter's answer, record the issued call. -/
def callTradingAdapter
    (tas : Option (Nat → Option (AdapterPlaceRequest → Except String String)))
    (pid : Nat) (areq : AdapterPlaceRequest) :
    Except OrderError String × List AdapterPlaceRequest :=
  match tas with
  | none => (.ok "", [])
  | some adapters =>
    match adapters pid with
    | none => (.ok "", [])
    | some place =>
      match place areq with
      | .error m => (.error (.venueError m), [areq])
      | .ok venueOrderID => (.ok venueOrderID, [areq])

/-- `PlaceOrderFromFrontend`, as a state transformer.  Returns the
result, the updated store, and the venue adapter calls that were issued.
The Go code computes `expectedProfit` with float division; at
`bestPrice = 0` the float yields `+Inf` while `ℚ` yields `-amount` — that
branch stores a nonsense value either way and no claim depends on it. -/
def placeOrderFromFrontend (env : PlaceEnv) (db : DB) (req : PlaceOrderRequest) :
    Except OrderError PlaceOrderResult × DB × List AdapterPlaceRequest :=
  if req.contractOrderID = "" ∨ req.eventUUID = "" ∨ req.betOption = "" then
    (.error .missingParams, db, [])
  else
    match lookupDeposit db req.contractOrderID with
    | .error e => (.error e, db, [])
    | .ok ce =>
      match (if req.signature = "" then Except.ok () else
          verifyOrderSignature env.now env.recover ce.userWallet req.messageToSign req.signature) with
      | .error e => (.error (.signatureInvalid e), db, [])
      | .ok _ =>
        let amount := ce.depositAmount.getD 0
        if 0 < req.amount ∧ 0 < amount ∧
            (1/100 < req.amount - amount ∨ 1/100 < amount - req.amount) then
          (.error .amountMismatch, db, [])
        else if amount ≤ 0 then (.error .invalidDepositAmount, db, [])
        else
          let fundCurrency := fundCurrencyOf ce
          match resolveEventAndLinks db req.eventUUID with
          | .error e => (.error e, db, [])
          | .ok (event, eventIDs, links) =>
            match fetchLiveOddsForEvent env db event eventIDs links with
            | .error e => (.error e, db, [])
            | .ok (odds, fetchedPerLink) =>
              match pickBestOdds odds req.betOption with
              | .error m => (.error (.pickFailed m), db, [])
              | .ok (bestPlatformID, bestPrice, bestOptionName) =>
                match (if bestPlatformID = 2 then env.fiatConvertToUSD amount fundCurrency
                    else .ok amount) with
                | .error m => (.error (.fiatConversionFailed m), db, [])
                | .ok betAmountUSD =>
                  let targetEvent := selectTargetEvent db event eventIDs links bestPlatformID
                  let lockedOdds := if 0 < req.lockedOdds then req.lockedOdds else bestPrice
                  match callTradingAdapter env.tradingAdapters bestPlatformID
                      ⟨bestPlatformID, targetEvent.platformEventID, bestOptionName,
                        betAmountUSD, lockedOdds⟩ with
                  | (.error e, trace) => (.error e, db, trace)
                  | (.ok platformOrderID, trace) =>
                    let ep0 := amount * (bestPrice - 1)
                    let order : OrderR :=
                      { orderUUID := req.contractOrderID
                        userWallet := ce.userWallet
                        eventID := event.id
                        platformID := bestPlatformID
                        platformOrderID :=
                          if platformOrderID = "" then none else some platformOrderID
                        betOption := bestOptionName
                        betAmount := amount
                        fundCurrency := fundCurrency
                        lockedOdds := bestPrice
                        expectedProfit := if ep0 < 0 then amount * (1 / bestPrice - 1) else ep0
                        actualProfit := 0
                        status := "placed" }
                    if db.orders.any (fun o => decide (o.orderUUID = req.contractOrderID)) then
                      (.error .createOrderFailed, db, trace)
                    else
                      let db1 := { db with orders := db.orders ++ [order] }
                      let db2 := updateProcessedByContractOrderID db1 req.contractOrderID
                        req.contractOrderID env.now
                      let db3 :=
                        if env.eventRepoPresent ∧ ¬ fetchedPerLink = [] then
                          upsertOddsForEvents db2 (fetchedPerLink.foldl (fun acc link =>
                            acc ++ link.rows.map fun r =>
                              ⟨link.eventID, link.platformID, link.platformEventID,
                                r.optionName, r.price⟩) [])
                        else db2
                      (.ok ⟨req.contractOrderID, platformOrderID, bestPlatformID, "placed"⟩,
                        db3, trace)

/-! ## Request-unfreeze (order.go `RequestUnfreeze`) -/

/-- Failure cases of `RequestUnfreeze`, one per `fmt.Errorf` site. -/
inductive UnfreezeError
  | missingID
  | chainNotConfigured
  | noRefundableDeposit
  | walletMismatch
  | invalidAmount
  | chainError (msg : String)
deriving DecidableEq, Repr

/-- `chain.FloatToUSDCAmount`: scale to 6 decimals, truncating. -/
def floatToUSDCAmount (amount : ℚ) : Int :=
  if amount ≤ 0 then 0 else goTruncToInt (amount * 1000000)

/-- A record of one issued `Escrow.releaseFunds` call. -/
structure ReleaseCall where
  betIdHex : String
  toAddr : String
  amount : Int
deriving DecidableEq, Repr

/-- Environment of `RequestUnfreeze`: the clock, whether the chain
parameters are configured, and the executor's release call (which includes
waiting for the receipt; `.ok` means the transaction succeeded on chain). -/
structure UnfreezeEnv where
  now : Int
  chainConfigured : Bool
  releaseFunds : String → String → Int → Except String String

/-- `RequestUnfreeze` as a state transformer: returns the result, the
updated store, and the issued on-chain release calls. -/
def requestUnfreeze (env : UnfreezeEnv) (db : DB) (contractOrderID wallet : String) :
    Except UnfreezeError String × DB × List ReleaseCall :=
  if contractOrderID = "" then (.error .missingID, db, [])
  else if env.chainConfigured = false then (.error .chainNotConfigured, db, [])
  else
    match getUnprocessedByContractOrderID db contractOrderID with
    | none => (.error .noRefundableDeposit, db, [])
    | some ce =>
      if wallet ≠ "" ∧ ce.userWallet ≠ wallet then (.error .walletMismatch, db, [])
      else
        let amount := ce.depositAmount.getD 0
        if amount ≤ 0 then (.error .invalidAmount, db, [])
        else
          let amountBig := floatToUSDCAmount amount
          if amountBig ≤ 0 then (.error .invalidAmount, db, [])
          else
            match env.releaseFunds contractOrderID ce.userWallet amountBig with
            | .error m =>
              (.error (.chainError m), db, [⟨contractOrderID, ce.userWallet, amountBig⟩])
            | .ok tx =>
              (.ok tx, markRefundedByContractOrderID db contractOrderID env.now,
                [⟨contractOrderID, ce.userWallet, amountBig⟩])

/-! ## Result-sync order sweep (market.go `ResultSyncService.Run`) -/

/-- The per-order body of the result-sync sweep: only orders whose status is
exactly `placed` move, to `settlable` on a win and `settled` on a loss;
every other order is skipped (`continue`). -/
def sweepOrderForResult (result : String) (o : OrderR) : OrderR :=
  if o.status = "placed" then
    if o.betOption = result then { o with status := "settlable" }
    else { o with status := "settled" }
  else o

/-- The sweep over all orders of an event.  The Go loop updates each row by
its unique `order_uuid`, which on the list model is the element-wise map. -/
def sweepOrdersForResult (result : String) (orders : List OrderR) : List OrderR :=
  orders.map (sweepOrderForResult result)

/-! ## Withdraw info (order.go `GetWithdrawInfo`) -/

/-- `kalshiPlatformID = 2`. -/
def kalshiPlatformID : Nat := 2

/-- `feeRateBps = 100`. -/
def feeRateBps : ℚ := 100

/-- `WithdrawInfo` (fields left at their Go zero values when unset). -/
structure WithdrawInfo where
  orderUUID : String
  userWallet : String
  infoType : String
  amount : ℚ
  fee : ℚ
  userAmount : ℚ
  contractAddress : String
  method : String
deriving DecidableEq, Repr

/-- `GetWithdrawInfo`: only `settled` orders are withdrawable; payout is
`bet_amount + actual_profit` floored at zero; the Kalshi branch charges 1%
of the positive profit. -/
def getWithdrawInfo (db : DB) (orderUUID : String) : Except String WithdrawInfo :=
  match db.orders.find? (fun o => decide (o.orderUUID = orderUUID)) with
  | none => .error "order not found"
  | some o =>
    if o.status ≠ "settled" then .error "order status not withdrawable"
    else
      let payout0 := o.betAmount + o.actualProfit
      let payout := if payout0 < 0 then 0 else payout0
      if o.platformID = kalshiPlatformID then
        let profit := if o.actualProfit < 0 then 0 else o.actualProfit
        let fee := profit * feeRateBps / 10000
        .ok ⟨o.orderUUID, o.userWallet, "kalshi", payout, fee, payout - fee, "", ""⟩
      else
        .ok ⟨o.orderUUID, o.userWallet, "chain", payout, 0, 0, "", "withdraw"⟩

/-! ## Kalshi trading adapter (`TradingAdapter.PlaceOrder`) -/

/-- The venue-side order body built by the Kalshi adapter
(`kalshiCreateOrderRequest`). -/
structure KalshiOrderBody where
  ticker : String
  side : String
  action : String
  count : Int
  orderType : String
  yesPrice : Int
  noPrice : Int
deriving DecidableEq, Repr

/-- The unit conversion of `TradingAdapter.PlaceOrder`: decimal price →
`round(price*100)` cents clamped to 1–99; USD size → whole contracts with a
minimum of 1. -/
def kalshiOrderBody (req : AdapterPlaceRequest) : KalshiOrderBody :=
  let side := if goToUpper req.betOption = "NO" then "no" else "yes"
  let p0 := goRound (req.lockedOdds * 100)
  let p1 := if p0 < 1 then 1 else p0
  let priceCents := if 99 < p1 then 99 else p1
  let c0 := goTruncToInt req.betAmount
  let count := if c0 < 1 then 1 else c0
  { ticker := req.platformEventID, side := side, action := "buy", count := count,
    orderType := "limit",
    yesPrice := if side = "yes" then priceCents else 0,
    noPrice := if side = "no" then priceCents else 0 }

/-! ## Executor `ReleaseFunds` (api/order_handler.go) -/

/-- Failure cases of the executor's `ReleaseFunds`, one per error site. -/
inductive ReleaseError
  | missingConfig
  | invalidAmount
  | dialFailed
  | nonHexBetId
  | decodeFailed
  | betIdTooLong
  | betIdNot64Hex
  | sendFailed (msg : String)
  | reverted (txHash : String)
  | receiptTimeout (txHash : String)
deriving DecidableEq, Repr

/-- All characters are hexadecimal digits (the validation loop). -/
def allHexChars (s : String) : Bool :=
  s.data.all fun c =>
    ('0' ≤ c ∧ c ≤ '9') ∨ ('a' ≤ c ∧ c ≤ 'f') ∨ ('A' ≤ c ∧ c ≤ 'F')

/-- The betId validation of `ReleaseFunds`: trim, strip `0x`, require hex,
left-pad an odd-length string with one `0`, decode, reject more than 32
bytes, reject a hex form that is not 64 characters, and left-pad the bytes
into a `bytes32`. -/
def parseBetId (betIdHex : String) : Except ReleaseError (List Nat) :=
  let hexStr0 := drop0x (goTrimSpace betIdHex)
  if allHexChars hexStr0 = false then .error .nonHexBetId
  else
    let hexStr := if hexStr0.length % 2 = 1 then "0" ++ hexStr0 else hexStr0
    match goHexDecode hexStr with
    | none => .error .decodeFailed
    | some buf =>
      if 32 < buf.length then .error .betIdTooLong
      else if hexStr.length ≠ 64 then .error .betIdNot64Hex
      else .ok (List.replicate (32 - buf.length) 0 ++ buf)

/-- Chain collaborators of `ReleaseFunds`: dialing, the signed send (which
abstracts ABI packing, key decoding, chain id, gas, nonce and signing), and
the outcome of the 30-attempt receipt poll (`none` = no receipt in time). -/
structure ChainEnv where
  dialOk : Bool
  sendTx : List Nat → String → Int → Except String String
  receiptStatus : Option Bool

/-- `ReleaseFunds`: the boolean records whether a transaction was accepted
by the node (`SendTransaction` returned without error). -/
def releaseFundsGo (env : ChainEnv) (rpcURL escrowAddr executorKey betIdHex toAddr : String)
    (amount : Int) : Except ReleaseError String × Bool :=
  if rpcURL = "" ∨ escrowAddr = "" ∨ executorKey = "" then (.error .missingConfig, false)
  else if amount ≤ 0 then (.error .invalidAmount, false)
  else if env.dialOk = false then (.error .dialFailed, false)
  else
    match parseBetId betIdHex with
    | .error e => (.error e, false)
    | .ok betId =>
      match env.sendTx betId toAddr amount with
      | .error m => (.error (.sendFailed m), false)
      | .ok txHash =>
        match env.receiptStatus with
        | none => (.error (.receiptTimeout txHash), true)
        | some true => (.ok txHash, true)
        | some false => (.error (.reverted txHash), true)

/-! ## Canonical key (aggregation.go) -/

/-- The character class of `regexp` `\s`: `[\t\n\f\r ]`. -/
def isReSpace (c : Char) : Bool :=
  c = '\t' || c = '\n' || c = '\x0c' || c = '\r' || c = ' '

/-- Lower-case letters and digits: the characters kept by `normalizeTitle`
after lowercasing. -/
def isLowerAlnum (c : Char) : Bool :=
  ('a' ≤ c ∧ c ≤ 'z') ∨ ('0' ≤ c ∧ c ≤ '9')

/-- Replacement of every maximal run of `p`-characters with a single space,
modelling `regexp.ReplaceAllString` for a pattern of the shape
`[class]+` with replacement `" "`.  `inRun` says whether the previous
character belonged to a run. -/
def collapseRuns (p : Char → Bool) (inRun : Bool) : List Char → List Char
  | [] => []
  | c :: cs =>
    if p c then
      if inRun then collapseRuns p true cs else ' ' :: collapseRuns p true cs
    else c :: collapseRuns p false cs

/-- `normalizeTitle` (aggregation.go): trim, lowercase, replace
non-alphanumeric non-space runs with a space, collapse whitespace runs,
trim. -/
def normalizeTitleList (t : List Char) : List Char :=
  let s0 := ((t.dropWhile isGoSpace).rdropWhile isGoSpace).map Char.toLower
  let s1 := collapseRuns (fun c => !(isLowerAlnum c) && !(isReSpace c)) false s0
  let s2 := collapseRuns isReSpace false s1
  (s2.dropWhile isGoSpace).rdropWhile isGoSpace

/-- `normalizeTitle` on strings. -/
def normalizeTitle (s : String) : String := ⟨normalizeTitleList s.data⟩

/-- `startTime.Truncate(30 * time.Minute).Unix()`: the 30-minute bucket.
Go truncates in absolute time since year 1, whose offset from the unix
epoch is a multiple of 1800, so on unix seconds this is flooring to a
multiple of 1800. -/
def truncate30m (startUnix : Int) : Int := 1800 * (startUnix.fdiv 1800)

/-- `buildCanonicalKey` (aggregation.go).  `sha256hex` abstracts the Go
standard library's `sha256.Sum256` followed by `hex.EncodeToString`; the
key is the first 32 hex characters of the digest of
`"<normalized title>|<bucket>"`. -/
def buildCanonicalKey (sha256hex : String → String) (title : String) (startUnix : Int) :
    String :=
  ⟨(sha256hex (normalizeTitle title ++ "|" ++ toString (truncate30m startUnix))).data.take 32⟩

/-- Maximal runs of lower-case-alphanumeric characters, accumulator form. -/
def wordsAux (acc : List Char) : List Char → List (List Char)
  | [] => if acc = [] then [] else [acc.reverse]
  | c :: cs =>
    if isLowerAlnum c then wordsAux (c :: acc) cs
    else if acc = [] then wordsAux [] cs
    else acc.reverse :: wordsAux [] cs

/-- Maximal alphanumeric runs of a character list. -/
def alnumWords (l : List Char) : List (List Char) := wordsAux [] l

/-- The word sequence of a title: its maximal alphanumeric runs after
lowercasing.  Two titles differ only in letter case, punctuation, or
repeated whitespace exactly when their word sequences agree. -/
def titleWords (s : String) : List (List Char) := alnumWords (s.data.map Char.toLower)

/-- Words joined by single spaces (the normal form `normalizeTitle`
produces). -/
def renderWords : List (List Char) → List Char
  | [] => []
  | [w] => w
  | w :: ws => w ++ ' ' :: renderWords ws

/-- The projected triple the pick loop tracks: platform id, price, original
option name. -/
def tri (o : EventOdds) : Nat × ℚ × String := (o.platformID, o.price, o.optionName)

/-- First-seen maximum-price row of a list (ties keep the earlier row). -/
def firstMaxElem : List EventOdds → Option EventOdds
  | [] => none
  | o :: rest =>
    match firstMaxElem rest with
    | none => some o
    | some m => if o.price < m.price then some m else some o

/-- The pick loop restricted to an already-filtered list. -/
def bestFoldTri : List EventOdds → Option (Nat × ℚ × String) → Option (Nat × ℚ × String)
  | [], acc => acc
  | o :: rest, acc =>
    match acc with
    | none => bestFoldTri rest (some (tri o))
    | some (pid, best, name) =>
      if best < o.price then bestFoldTri rest (some (tri o))
      else bestFoldTri rest (some (pid, best, name))

/-- Odds rows used by the pick-best-odds witness. -/
def oddsW : List EventOdds :=
  [⟨1, 1, "Yes ", "", 60⟩, ⟨1, 2, "YES", "", 65⟩, ⟨1, 3, "nope", "lose", 90⟩]

/-! ## Concrete scenarios used by counterexamples and witnesses -/

/-- A deposited (unprocessed, unrefunded) contract event for 10 USDC. -/
def ceSc : ContractEventR :=
  ⟨"DepositSuccess", some "co1", none, "0xW", some 10, some "USDC", "0xtx1", false, none, none⟩

/-- A single-venue event. -/
def evSc : EventR := ⟨1, "ev-1", "T", 1, "pm-1", 0, 0, none, "active"⟩

/-- Store holding just the deposit and the event. -/
def dbSc : DB := ⟨[ceSc], [], [evSc], [], []⟩

/-- Environment whose live quote for the event is a YES at price 1.00 and
whose venue adapter accepts every order. -/
def envSc : PlaceEnv :=
  { now := 0
    recover := fun _ _ => none
    liveOddsFetchers := some fun pid =>
      if pid = 1 then some (fun _ _ => .ok [⟨1, "YES", 1⟩]) else none
    fiatConvertToUSD := fun a _ => .ok a
    tradingAdapters := some fun _ => some fun _ => .ok "venue-1"
    eventRepoPresent := true }

/-- A place request with no client-supplied odds, amount or signature. -/
def reqSc : PlaceOrderRequest := ⟨"co1", "ev-1", "YES", 0, 0, "", ""⟩

/-- A placed YES order of 10 USDC on a non-Kalshi venue. -/
def orderSc : OrderR :=
  ⟨"od3", "0xU", 7, 1, none, "YES", 10, "USDC", 3/5, 0, 0, "placed"⟩

/-- The store after the result-sync sweep settled `orderSc` as a loss. -/
def dbSc3 : DB := ⟨[], sweepOrdersForResult "NO" [orderSc], [], [], []⟩

/-- A 63-hex-character contract order id. -/
def betId63 : String := String.mk (List.replicate 63 'a')

/-- A chain whose node accepts the transaction and reports success. -/
def chainEnvSc : ChainEnv := ⟨true, fun _ _ _ => .ok "0xtxh", some true⟩

/-- An unfreeze environment with configured chain parameters whose release
call succeeds. -/
def unfreezeEnvSc : UnfreezeEnv := ⟨5, true, fun _ _ _ => .ok "0xrel"⟩

/-- Recovery oracle that recovers the deposit wallet for every input. -/
def recGood : String → List Nat → Option String := fun _ _ => some "0xW"

/-- Recovery oracle that recovers an address other than the deposit wallet. -/
def recEvil : String → List Nat → Option String := fun _ _ => some "0xEVIL"

/-- A well-formed prepared message whose trailing expiry is unix second 99. -/
def msgSc : String := "PlaceOrder:co1:ev-1:YES:0.650000:99"

/-- A 65-byte signature: 0x followed by 130 hex characters. -/
def sigSc : String := "0x" ++ String.mk (List.replicate 130 '1')

/-- `envSc` with signature recovery resolving to the deposit wallet. -/
def envSigSc : PlaceEnv := { envSc with recover := recGood }

/-- `envSc` with signature recovery resolving to a foreign address. -/
def envEvilSc : PlaceEnv := { envSc with recover := recEvil }

/-- `reqSc` carrying the signed message and its signature. -/
def reqSigSc : PlaceOrderRequest := { reqSc with messageToSign := msgSc, signature := sigSc }

/-! # Theorems -/

/-- Clamping an integer below by 1 erases the difference between Go's
truncating `int(x)` conversion and flooring. -/
theorem max_one_trunc_eq_max_one_floor (q : ℚ) : max 1 (goTruncToInt q) = max 1 ⌊q⌋ := by
  unfold goTruncToInt
  split_ifs with h
  · rfl
  · push_neg at h
    have h1 : ⌈q⌉ ≤ (0 : ℤ) := Int.ceil_le.mpr (by exact_mod_cast h.le)
    have h2 : ⌊q⌋ ≤ ⌈q⌉ := Int.floor_le_ceil q
    omega

/-- Reading the side field of the Kalshi order body. -/
theorem kalshiOrderBody_side (req : AdapterPlaceRequest) :
    (kalshiOrderBody req).side = (if goToUpper req.betOption = "NO" then "no" else "yes") := rfl

/-- Reading the count field of the Kalshi order body. -/
theorem kalshiOrderBody_count (req : AdapterPlaceRequest) :
    (kalshiOrderBody req).count =
      (if goTruncToInt req.betAmount < 1 then 1 else goTruncToInt req.betAmount) := rfl

/-- Reading the yes-price field of the Kalshi order body. -/
theorem kalshiOrderBody_yesPrice (req : AdapterPlaceRequest) :
    (kalshiOrderBody req).yesPrice =
      (if (if goToUpper req.betOption = "NO" then "no" else "yes") = "yes" then
        (if 99 < (if goRound (req.lockedOdds * 100) < 1 then 1
            else goRound (req.lockedOdds * 100)) then 99
          else (if goRound (req.lockedOdds * 100) < 1 then 1
            else goRound (req.lockedOdds * 100)))
        else 0) := rfl

/-- Reading the no-price field of the Kalshi order body. -/
theorem kalshiOrderBody_noPrice (req : AdapterPlaceRequest) :
    (kalshiOrderBody req).noPrice =
      (if (if goToUpper req.betOption = "NO" then "no" else "yes") = "no" then
        (if 99 < (if goRound (req.lockedOdds * 100) < 1 then 1
            else goRound (req.lockedOdds * 100)) then 99
          else (if goRound (req.lockedOdds * 100) < 1 then 1
            else goRound (req.lockedOdds * 100)))
        else 0) := rfl

/-- `UpdateProcessedByContractOrderID` leaves the orders table unchanged. -/
theorem updateProcessed_orders (db : DB) (a b : String) (n : Int) :
    (updateProcessedByContractOrderID db a b n).orders = db.orders := rfl

/-- `UpsertOddsForEvents` leaves the orders table unchanged. -/
theorem upsertOddsForEvents_orders (rows : List OddsRow) (db : DB) :
    (upsertOddsForEvents db rows).orders = db.orders := by
  induction rows generalizing db with
  | nil => rfl
  | cons r rs ih =>
    unfold upsertOddsForEvents at ih ⊢
    simp only [List.foldl_cons]
    rw [ih]
    split <;> rfl

/-- Every call the trading-adapter step records is the request it was
given. -/
theorem callTradingAdapter_trace (tas : Option (Nat → Option (AdapterPlaceRequest → Except String String)))
    (pid : Nat) (areq : AdapterPlaceRequest) (p : Except OrderError String)
    (tr : List AdapterPlaceRequest) (h : callTradingAdapter tas pid areq = (p, tr)) :
    ∀ c ∈ tr, c = areq := by
  unfold callTradingAdapter at h
  repeat' split at h
  all_goals (cases h; simp)

/-- Shape of a successful place run: the created order and the issued
adapter calls carry the unclamped best price (or the raw client odds). -/
theorem place_ok_shape (env : PlaceEnv) (db : DB) (req : PlaceOrderRequest)
    (res : PlaceOrderResult) (db2 : DB) (tr : List AdapterPlaceRequest)
    (h : placeOrderFromFrontend env db req = (.ok res, db2, tr)) :
    ∃ ev ids links odds fetched pid price name o,
      resolveEventAndLinks db req.eventUUID = .ok (ev, ids, links) ∧
      fetchLiveOddsForEvent env db ev ids links = .ok (odds, fetched) ∧
      pickBestOdds odds req.betOption = .ok (pid, price, name) ∧
      db2.orders = db.orders ++ [o] ∧
      o.lockedOdds = price ∧ o.status = "placed" ∧ res.platformID = pid ∧
      (∀ c ∈ tr, c.lockedOdds = (if 0 < req.lockedOdds then req.lockedOdds else price)) := by
  unfold placeOrderFromFrontend at h
  by_cases h0 : (req.contractOrderID = "" ∨ req.eventUUID = "" ∨ req.betOption = "")
  · rw [if_pos h0] at h; simp at h
  rw [if_neg h0] at h
  cases hce : lookupDeposit db req.contractOrderID with
  | error e => simp only [hce] at h; simp at h
  | ok ce =>
  simp only [hce] at h
  cases hsig : (if req.signature = "" then Except.ok () else
      verifyOrderSignature env.now env.recover ce.userWallet req.messageToSign req.signature) with
  | error e => simp only [hsig] at h; simp at h
  | ok u =>
  simp only [hsig] at h
  by_cases hC1 : (0 < req.amount ∧ 0 < ce.depositAmount.getD 0 ∧
      (1/100 < req.amount - ce.depositAmount.getD 0 ∨ 1/100 < ce.depositAmount.getD 0 - req.amount))
  · rw [if_pos hC1] at h; simp at h
  rw [if_neg hC1] at h
  by_cases hC2 : ce.depositAmount.getD 0 ≤ 0
  · rw [if_pos hC2] at h; simp at h
  rw [if_neg hC2] at h
  cases hresolve : resolveEventAndLinks db req.eventUUID with
  | error e => simp only [hresolve] at h; simp at h
  | ok trip =>
  obtain ⟨ev, ids, links⟩ := trip
  simp only [hresolve] at h
  cases hfetch : fetchLiveOddsForEvent env db ev ids links with
  | error e => simp only [hfetch] at h; simp at h
  | ok pr =>
  obtain ⟨odds, fetched⟩ := pr
  simp only [hfetch] at h
  cases hpick : pickBestOdds odds req.betOption with
  | error e => simp only [hpick] at h; simp at h
  | ok best =>
  obtain ⟨pid, price, name⟩ := best
  simp only [hpick] at h
  cases husd : (if pid = 2 then env.fiatConvertToUSD (ce.depositAmount.getD 0) (fundCurrencyOf ce)
      else Except.ok (ce.depositAmount.getD 0)) with
  | error e => simp only [husd] at h; simp at h
  | ok usd =>
  simp only [husd] at h
  rcases hct : callTradingAdapter env.tradingAdapters pid
      ⟨pid, (selectTargetEvent db ev ids links pid).platformEventID, name, usd,
        if 0 < req.lockedOdds then req.lockedOdds else price⟩ with ⟨cres, ctrace⟩
  cases cres with
  | error e => simp only [hct] at h; simp at h
  | ok venueID =>
  simp only [hct] at h
  by_cases hdup : (db.orders.any fun o => decide (o.orderUUID = req.contractOrderID)) = true
  · rw [if_pos hdup] at h; simp at h
  rw [if_neg hdup] at h
  simp only [Prod.mk.injEq, Except.ok.injEq] at h
  obtain ⟨hres, hdb, htr⟩ := h
  refine ⟨ev, ids, links, odds, fetched, pid, price, name,
    { orderUUID := req.contractOrderID, userWallet := ce.userWallet, eventID := ev.id,
      platformID := pid, platformOrderID := if venueID = "" then none else some venueID,
      betOption := name, betAmount := ce.depositAmount.getD 0, fundCurrency := fundCurrencyOf ce,
      lockedOdds := price,
      expectedProfit := if ce.depositAmount.getD 0 * (price - 1) < 0 then
          ce.depositAmount.getD 0 * (1 / price - 1) else ce.depositAmount.getD 0 * (price - 1),
      actualProfit := 0, status := "placed" },
    rfl, hfetch, hpick, ?_, rfl, rfl, ?_, ?_⟩
  · rw [← hdb]
    by_cases hup : (env.eventRepoPresent = true ∧ ¬fetched = [])
    · rw [if_pos hup, upsertOddsForEvents_orders, updateProcessed_orders]
    · rw [if_neg hup, updateProcessed_orders]
  · rw [← hres]
  · intro c hc
    rw [← htr] at hc
    have hcall := callTradingAdapter_trace _ _ _ _ _ hct c hc
    rw [hcall]

/-- Shape of a successful prepare run: the returned odds are the clamp of
the picked best price. -/
theorem prepare_ok_shape (env : PlaceEnv) (db : DB) (req : PrepareOrderRequest)
    (res : PrepareOrderResult) (h : prepareOrderFromFrontend env db req = .ok res) :
    ∃ ev ids links odds fetched pid price name,
      resolveEventAndLinks db req.eventUUID = .ok (ev, ids, links) ∧
      fetchLiveOddsForEvent env db ev ids links = .ok (odds, fetched) ∧
      pickBestOdds odds req.betOption = .ok (pid, price, name) ∧
      res.lockedOdds = clampOddsForSign price := by
  unfold prepareOrderFromFrontend at h
  by_cases h0 : (req.contractOrderID = "" ∨ req.eventUUID = "" ∨ req.betOption = "")
  · rw [if_pos h0] at h; simp at h
  rw [if_neg h0] at h
  cases hce : lookupDeposit db req.contractOrderID with
  | error e => simp only [hce] at h; simp at h
  | ok ce =>
  simp only [hce] at h
  cases hresolve : resolveEventAndLinks db req.eventUUID with
  | error e => simp only [hresolve] at h; simp at h
  | ok trip =>
  obtain ⟨ev, ids, links⟩ := trip
  simp only [hresolve] at h
  cases hfetch : fetchLiveOddsForEvent env db ev ids links with
  | error e => simp only [hfetch] at h; simp at h
  | ok pr =>
  obtain ⟨odds, fetched⟩ := pr
  simp only [hfetch] at h
  cases hpick : pickBestOdds odds req.betOption with
  | error e => simp only [hpick] at h; simp at h
  | ok best =>
  obtain ⟨pid, price, name⟩ := best
  simp only [hpick] at h
  simp only [Except.ok.injEq] at h
  refine ⟨ev, ids, links, odds, fetched, pid, price, name, rfl, hfetch, hpick, ?_⟩
  rw [← h]

/-- **C8**: for the cent-denominated venue (Kalshi), `place_order` converts
the decimal price to `round(price*100)` cents clamped to 1–99, and converts
the size to the USD amount floored to an integer with a minimum of one
contract, for every input request. -/
theorem c8_kalshi_unit_conversion (req : AdapterPlaceRequest) :
    (if (kalshiOrderBody req).side = "yes" then (kalshiOrderBody req).yesPrice
      else (kalshiOrderBody req).noPrice)
      = min 99 (max 1 (goRound (req.lockedOdds * 100))) ∧
    1 ≤ (if (kalshiOrderBody req).side = "yes" then (kalshiOrderBody req).yesPrice
      else (kalshiOrderBody req).noPrice) ∧
    (if (kalshiOrderBody req).side = "yes" then (kalshiOrderBody req).yesPrice
      else (kalshiOrderBody req).noPrice) ≤ 99 ∧
    (kalshiOrderBody req).count = max 1 ⌊req.betAmount⌋ := by
  have hcount : (kalshiOrderBody req).count = max 1 ⌊req.betAmount⌋ := by
    rw [kalshiOrderBody_count, ← max_one_trunc_eq_max_one_floor]
    split_ifs with h <;> omega
  refine ⟨?_, ?_, ?_, hcount⟩ <;>
    · rw [kalshiOrderBody_side, kalshiOrderBody_yesPrice, kalshiOrderBody_noPrice]
      by_cases hside : goToUpper req.betOption = "NO" <;>
        · simp only [hside, if_true, if_false, reduceIte]
          split_ifs <;> omega

/-- **C10**: the result-sync sweep over an event's orders leaves every order
whose status is not exactly `placed` entirely unchanged (same position, all
fields intact). -/
theorem c10_result_sync_frame (result : String) (orders : List OrderR) (i : Nat) (o : OrderR)
    (hget : orders[i]? = some o) (hst : o.status ≠ "placed") :
    (sweepOrdersForResult result orders)[i]? = some o := by
  unfold sweepOrdersForResult
  rw [List.getElem?_map, hget]
  show some (sweepOrderForResult result o) = some o
  rw [sweepOrderForResult, if_neg hst]

/-- Witness for **C10** at a withdrawn order. -/
theorem c10_result_sync_frame_witness :
    ([({ orderSc with status := "withdrawn" } : OrderR)][0]? =
      some { orderSc with status := "withdrawn" }) ∧
    ({ orderSc with status := "withdrawn" } : OrderR).status ≠ "placed" ∧
    (sweepOrdersForResult "NO" [{ orderSc with status := "withdrawn" }])[0]? =
      some { orderSc with status := "withdrawn" } :=
  ⟨rfl, by decide,
    c10_result_sync_frame "NO" [{ orderSc with status := "withdrawn" }] 0
      { orderSc with status := "withdrawn" } rfl (by decide)⟩

/-- **C3**: the sweep does settle a losing placed YES order with
`actual_profit = 0`, but `withdraw-info` for that order then returns
`amount = bet_amount` (10), not 0: `GetWithdrawInfo` computes
`payout = bet_amount + actual_profit` and the sweep never reduces the
stake. -/
theorem c3_loss_withdraw_amount_is_bet :
    sweepOrdersForResult "NO" [orderSc] = [{ orderSc with status := "settled" }] ∧
    (sweepOrdersForResult "NO" [orderSc]).map OrderR.actualProfit = [0] ∧
    getWithdrawInfo dbSc3 "od3" = .ok ⟨"od3", "0xU", "chain", 10, 0, 0, "", "withdraw"⟩ ∧
    (10 : ℚ) ≠ 0 := by
  refine ⟨rfl, rfl, ?_, by norm_num⟩
  simp [getWithdrawInfo, dbSc3, sweepOrdersForResult, sweepOrderForResult, orderSc,
    kalshiPlatformID, feeRateBps]

/-- **C7**: a 63-hex-character contract order id is not rejected: the
validation left-pads the odd-length string to 64 characters before the
64-character check, so the transaction is sent — while every even hex
length other than 64 is a hard error before any send. -/
theorem c7_betid_63_hex_passes_validation :
    betId63.length = 63 ∧
    parseBetId betId63 = .ok (10 :: List.replicate 31 170) ∧
    releaseFundsGo chainEnvSc "rpc" "esc" "key" betId63 "0xU" 5000000 = (.ok "0xtxh", true) ∧
    parseBetId (String.mk (List.replicate 62 'a')) = .error .betIdNot64Hex ∧
    releaseFundsGo chainEnvSc "rpc" "esc" "key" (String.mk (List.replicate 62 'a'))
      "0xU" 5000000 = (.error .betIdNot64Hex, false) := by
  refine ⟨by decide, by decide, by decide, by decide, by decide⟩

/-- **C1** counterexample: with a live best price of 1.00 and no
client-supplied odds, place submits `locked_odds = 1` to the venue adapter
and stores `locked_odds = 1` on the created order — outside [0.01, 0.99]. -/
theorem c1_clamp_counterexample :
    (placeOrderFromFrontend envSc dbSc reqSc).2.1.orders.map OrderR.lockedOdds = [1] ∧
    (placeOrderFromFrontend envSc dbSc reqSc).2.2.map AdapterPlaceRequest.lockedOdds = [1] ∧
    (placeOrderFromFrontend envSc dbSc reqSc).1 = .ok ⟨"co1", "venue-1", 1, "placed"⟩ ∧
    ¬ ((1 : ℚ) ≤ 99 / 100) := by
  refine ⟨?_, ?_, ?_, by norm_num⟩ <;>
    simp [placeOrderFromFrontend, lookupDeposit, getUnprocessedByContractOrderID,
      getContractEventByContractOrderID, dbSc, ceSc, evSc, envSc, reqSc,
      resolveEventAndLinks, getEventByUUID, getEventByID, expandEventLinks,
      getCanonicalIDByEventID,
      listLinksByCanonicalID, fetchLiveOddsForEvent, getOddsByEventIDs, pickBestOdds,
      pickBestLoop, oddsMatches, goTrimSpaces, trimSpacesList, goToUpper,
      updateProcessedByContractOrderID, upsertOddsForEvents, verifyOrderSignature,
      fundCurrencyOf, selectTargetEvent, callTradingAdapter,
      List.find?, List.filter, List.dropWhile, List.rdropWhile,
      List.foldl, List.findSome?, List.isEmpty, List.contains, List.any, List.elem,
      show ¬ (10:ℚ) ≤ 0 by norm_num, show ¬ (0:ℚ) < 0 by norm_num]

/-- **C1** amended: `prepare` returns `clampOddsForSign(best price)`, which
clamps only the extremes — prices ≥ 1 become 0.99 and prices ≤ 0 become
0.01, anything strictly between 0 and 1 passes through — so the prepared
`locked_odds` lies in [0.01, 0.99] when the best price does or is an
extreme; `place` does not clamp: it hands the venue adapter the raw best
price (or the client-supplied `locked_odds` when positive) and stores the
raw best price on the created Order row. -/
theorem c1_clamp_amended :
    (∀ p : ℚ, (p ≤ 0 ∨ 1 ≤ p ∨ (1/100 ≤ p ∧ p ≤ 99/100)) →
      1/100 ≤ clampOddsForSign p ∧ clampOddsForSign p ≤ 99/100) ∧
    (∀ env db req res, prepareOrderFromFrontend env db req = .ok res →
      ∃ ev ids links odds fetched pid price name,
        resolveEventAndLinks db req.eventUUID = .ok (ev, ids, links) ∧
        fetchLiveOddsForEvent env db ev ids links = .ok (odds, fetched) ∧
        pickBestOdds odds req.betOption = .ok (pid, price, name) ∧
        res.lockedOdds = clampOddsForSign price) ∧
    (∀ env db req res db2 tr, placeOrderFromFrontend env db req = (.ok res, db2, tr) →
      ∃ ev ids links odds fetched pid price name o,
        resolveEventAndLinks db req.eventUUID = .ok (ev, ids, links) ∧
        fetchLiveOddsForEvent env db ev ids links = .ok (odds, fetched) ∧
        pickBestOdds odds req.betOption = .ok (pid, price, name) ∧
        db2.orders = db.orders ++ [o] ∧
        o.lockedOdds = price ∧ o.status = "placed" ∧ res.platformID = pid ∧
        (∀ c ∈ tr, c.lockedOdds = (if 0 < req.lockedOdds then req.lockedOdds else price))) := by
  refine ⟨?_, fun env db req res h => prepare_ok_shape env db req res h,
    fun env db req res db2 tr h => place_ok_shape env db req res db2 tr h⟩
  intro p hp
  unfold clampOddsForSign
  rcases hp with h | h | h
  · rw [if_neg (not_le.mpr (by linarith)), if_pos h]
    norm_num
  · rw [if_pos h]
    norm_num
  · rw [if_neg (not_le.mpr (by linarith [h.2])), if_neg (not_le.mpr (by linarith [h.1]))]
    exact h

/-- Witness for **C1 amended** at clamp input 2, a concrete prepare run and
a concrete place run. -/
theorem c1_clamp_amended_witness :
    ((2:ℚ) ≤ 0 ∨ 1 ≤ (2:ℚ) ∨ (1/100 ≤ (2:ℚ) ∧ (2:ℚ) ≤ 99/100)) ∧
    (1/100 ≤ clampOddsForSign 2 ∧ clampOddsForSign 2 ≤ 99/100) ∧
    prepareOrderFromFrontend envSc dbSc ⟨"co1", "ev-1", "YES"⟩ =
      .ok ⟨99/100, "PlaceOrder:co1:ev-1:YES:0.990000:300", 300⟩ ∧
    (∃ ev ids links odds fetched pid price name,
      resolveEventAndLinks dbSc "ev-1" = .ok (ev, ids, links) ∧
      fetchLiveOddsForEvent envSc dbSc ev ids links = .ok (odds, fetched) ∧
      pickBestOdds odds "YES" = .ok (pid, price, name) ∧
      (⟨99/100, "PlaceOrder:co1:ev-1:YES:0.990000:300", 300⟩ :
        PrepareOrderResult).lockedOdds = clampOddsForSign price) ∧
    (∃ ev ids links odds fetched pid price name o,
      resolveEventAndLinks dbSc "ev-1" = .ok (ev, ids, links) ∧
      fetchLiveOddsForEvent envSc dbSc ev ids links = .ok (odds, fetched) ∧
      pickBestOdds odds "YES" = .ok (pid, price, name) ∧
      (placeOrderFromFrontend envSc dbSc reqSc).2.1.orders = dbSc.orders ++ [o] ∧
      o.lockedOdds = price ∧ o.status = "placed" ∧
      (⟨"co1", "venue-1", 1, "placed"⟩ : PlaceOrderResult).platformID = pid ∧
      (∀ c ∈ (placeOrderFromFrontend envSc dbSc reqSc).2.2,
        c.lockedOdds = (if 0 < reqSc.lockedOdds then reqSc.lockedOdds else price))) := by
  have hfl : ⌊(99/100 : ℚ) * 1000000 + 2⁻¹⌋ = (990000 : ℤ) := by
    rw [Int.floor_eq_iff] <;> norm_num
  have hprep : prepareOrderFromFrontend envSc dbSc ⟨"co1", "ev-1", "YES"⟩ =
      .ok ⟨99/100, "PlaceOrder:co1:ev-1:YES:0.990000:300", 300⟩ := by
    simp [prepareOrderFromFrontend, lookupDeposit, getUnprocessedByContractOrderID,
      getContractEventByContractOrderID, dbSc, ceSc, evSc, envSc,
      resolveEventAndLinks, getEventByUUID, getEventByID, expandEventLinks,
      getCanonicalIDByEventID, listLinksByCanonicalID, fetchLiveOddsForEvent,
      getOddsByEventIDs, pickBestOdds, pickBestLoop, oddsMatches, goTrimSpaces,
      trimSpacesList, goToUpper, clampOddsForSign, prepareOrderExpirySec,
      formatQ6, goRound, hfl, one_div,
      List.find?, List.filter, List.dropWhile, List.rdropWhile, List.foldl,
      List.findSome?, List.isEmpty, List.contains, List.any, List.elem]
    decide
  have h1 : (placeOrderFromFrontend envSc dbSc reqSc).1 =
      .ok ⟨"co1", "venue-1", 1, "placed"⟩ := by
    simp [placeOrderFromFrontend, lookupDeposit, getUnprocessedByContractOrderID,
      getContractEventByContractOrderID, dbSc, ceSc, evSc, envSc, reqSc,
      resolveEventAndLinks, getEventByUUID, getEventByID, expandEventLinks,
      getCanonicalIDByEventID,
      listLinksByCanonicalID, fetchLiveOddsForEvent, getOddsByEventIDs, pickBestOdds,
      pickBestLoop, oddsMatches, goTrimSpaces, trimSpacesList, goToUpper,
      updateProcessedByContractOrderID, upsertOddsForEvents, verifyOrderSignature,
      fundCurrencyOf, selectTargetEvent, callTradingAdapter,
      List.find?, List.filter, List.dropWhile, List.rdropWhile,
      List.foldl, List.findSome?, List.isEmpty, List.contains, List.any, List.elem,
      show ¬ (10:ℚ) ≤ 0 by norm_num, show ¬ (0:ℚ) < 0 by norm_num]
  have hplace : placeOrderFromFrontend envSc dbSc reqSc =
      (.ok ⟨"co1", "venue-1", 1, "placed"⟩, (placeOrderFromFrontend envSc dbSc reqSc).2.1,
        (placeOrderFromFrontend envSc dbSc reqSc).2.2) := by
    rw [← h1]
  exact ⟨by norm_num, c1_clamp_amended.1 2 (by norm_num), hprep,
    c1_clamp_amended.2.1 envSc dbSc ⟨"co1", "ev-1", "YES"⟩ _ hprep,
    c1_clamp_amended.2.2 envSc dbSc reqSc _ _ _ hplace⟩

/-- After `MarkRefundedByContractOrderID`, no unprocessed unrefunded
deposit with that contract order id remains. -/
theorem getUnprocessed_markRefunded (db : DB) (id : String) (now : Int) :
    getUnprocessedByContractOrderID (markRefundedByContractOrderID db id now) id = none := by
  unfold getUnprocessedByContractOrderID markRefundedByContractOrderID
  rw [List.find?_map, Option.map_eq_none', List.find?_eq_none]
  intro ce _
  by_cases hid : ce.contractOrderID = some id
  · simp [Function.comp, hid]
  · simp [Function.comp, hid]

/-- **C6**: after a successful `request_unfreeze` (release transaction
confirmed, `refunded_at` set), a second call on the same contract order id
fails with the state-conflict error (`no refundable deposit: possibly
already placed or already unfrozen`), issues no on-chain release call, and
leaves the store unchanged. -/
theorem c6_no_double_unfreeze (env1 env2 : UnfreezeEnv) (db db2 : DB)
    (id wallet1 wallet2 tx : String) (tr : List ReleaseCall)
    (h1 : requestUnfreeze env1 db id wallet1 = (.ok tx, db2, tr))
    (h2 : env2.chainConfigured = true) :
    requestUnfreeze env2 db2 id wallet2 = (.error .noRefundableDeposit, db2, []) := by
  unfold requestUnfreeze at h1
  by_cases hid : id = ""
  · rw [if_pos hid] at h1; simp at h1
  rw [if_neg hid] at h1
  by_cases hcfg : env1.chainConfigured = false
  · rw [if_pos hcfg] at h1; simp at h1
  rw [if_neg hcfg] at h1
  cases hget : getUnprocessedByContractOrderID db id with
  | none => rw [hget] at h1; simp at h1
  | some ce =>
  simp only [hget] at h1
  by_cases hw : (wallet1 ≠ "" ∧ ce.userWallet ≠ wallet1)
  · rw [if_pos hw] at h1; simp at h1
  rw [if_neg hw] at h1
  by_cases ha1 : ce.depositAmount.getD 0 ≤ 0
  · rw [if_pos ha1] at h1; simp at h1
  rw [if_neg ha1] at h1
  by_cases ha2 : floatToUSDCAmount (ce.depositAmount.getD 0) ≤ 0
  · rw [if_pos ha2] at h1; simp at h1
  rw [if_neg ha2] at h1
  cases hrel : env1.releaseFunds id ce.userWallet (floatToUSDCAmount (ce.depositAmount.getD 0)) with
  | error m => rw [hrel] at h1; simp at h1
  | ok tx2 =>
  simp only [hrel] at h1
  simp only [Prod.mk.injEq, Except.ok.injEq] at h1
  obtain ⟨-, hdb2, -⟩ := h1
  unfold requestUnfreeze
  rw [if_neg hid, if_neg (by simp [h2]), ← hdb2, getUnprocessed_markRefunded]

/-- Witness for **C6**: a concrete successful unfreeze of the scenario
deposit followed by the failed second call. -/
theorem c6_no_double_unfreeze_witness :
    requestUnfreeze unfreezeEnvSc dbSc "co1" "" =
      (.ok "0xrel", markRefundedByContractOrderID dbSc "co1" 5, [⟨"co1", "0xW", 10000000⟩]) ∧
    unfreezeEnvSc.chainConfigured = true ∧
    requestUnfreeze unfreezeEnvSc (markRefundedByContractOrderID dbSc "co1" 5) "co1" "" =
      (.error .noRefundableDeposit, markRefundedByContractOrderID dbSc "co1" 5, []) := by
  have hfloor : ⌊(10:ℚ) * 1000000⌋ = (10000000 : ℤ) := by
    rw [Int.floor_eq_iff] <;> norm_num
  have h1 : requestUnfreeze unfreezeEnvSc dbSc "co1" "" =
      (.ok "0xrel", markRefundedByContractOrderID dbSc "co1" 5, [⟨"co1", "0xW", 10000000⟩]) := by
    simp [requestUnfreeze, getUnprocessedByContractOrderID, dbSc, ceSc, unfreezeEnvSc,
      floatToUSDCAmount, goTruncToInt, hfloor, List.find?,
      show ¬ (10:ℚ) ≤ 0 by norm_num, show (0:ℚ) ≤ 10 * 1000000 by norm_num]
  exact ⟨h1, rfl, c6_no_double_unfreeze unfreezeEnvSc unfreezeEnvSc dbSc
    (markRefundedByContractOrderID dbSc "co1" 5) "co1" "" "" "0xrel"
    [⟨"co1", "0xW", 10000000⟩] h1 rfl⟩

/-- The Go pick loop equals the accumulator fold over the matching rows. -/
theorem pickBestLoop_eq_bestFoldTri (bu : String) (l : List EventOdds)
    (acc : Option (Nat × ℚ × String)) :
    pickBestLoop bu l acc = bestFoldTri (l.filter (oddsMatches bu)) acc := by
  induction l generalizing acc with
  | nil => rfl
  | cons o rest ih =>
    by_cases hm : oddsMatches bu o
    · rw [List.filter_cons_of_pos hm]
      cases acc with
      | none => simp only [pickBestLoop, bestFoldTri, hm, if_true]; exact ih _
      | some t =>
        obtain ⟨pid, best, name⟩ := t
        simp only [pickBestLoop, bestFoldTri, hm, if_true]
        by_cases hlt : best < o.price
        · rw [if_pos hlt, if_pos hlt]; exact ih _
        · rw [if_neg hlt, if_neg hlt]; exact ih _
    · rw [List.filter_cons_of_neg (by simpa using hm)]
      cases acc with
      | none => simp only [pickBestLoop, hm, if_false]; exact ih _
      | some t => simp only [pickBestLoop, hm, if_false]; exact ih _

/-- Folding from a seeded accumulator: the result is the seed unless the
list holds a strictly higher-priced row, in which case it is the first such
maximum. -/
theorem bestFoldTri_some (l : List EventOdds) (t : Nat × ℚ × String) :
    bestFoldTri l (some t) = some (match firstMaxElem l with
      | none => t
      | some m => if t.2.1 < m.price then tri m else t) := by
  induction l generalizing t with
  | nil => rfl
  | cons o rest ih =>
    obtain ⟨pid, best, name⟩ := t
    simp only [bestFoldTri]
    by_cases hlt : best < o.price
    · rw [if_pos hlt]
      simp only [tri]
      rw [ih]
      simp only [firstMaxElem, tri]
      cases hfm : firstMaxElem rest with
      | none =>
        simp only [hfm]
        rw [if_pos hlt]
      | some m =>
        simp only [hfm]
        by_cases h2 : o.price < m.price
        · simp only [h2, ite_true]
          rw [if_pos (by linarith)]
        · simp only [h2, ite_false]
          rw [if_pos hlt]
    · rw [if_neg hlt]
      rw [ih]
      simp only [firstMaxElem, tri]
      push_neg at hlt
      cases hfm : firstMaxElem rest with
      | none =>
        simp only [hfm]
        rw [if_neg (not_lt.mpr hlt)]
      | some m =>
        simp only [hfm]
        by_cases h2 : o.price < m.price
        · simp only [h2, ite_true]
        · simp only [h2, ite_false]
          have h2l : m.price ≤ o.price := not_lt.mp h2
          rw [if_neg (not_lt.mpr (le_trans h2l hlt)), if_neg (not_lt.mpr hlt)]

/-- The pick loop from an empty accumulator returns the projected
first-seen maximum. -/
theorem bestFoldTri_none (l : List EventOdds) :
    bestFoldTri l none = (firstMaxElem l).map tri := by
  cases l with
  | nil => rfl
  | cons o rest =>
    show bestFoldTri rest (some (tri o)) = _
    rw [bestFoldTri_some]
    simp only [firstMaxElem]
    cases hfm : firstMaxElem rest with
    | none => simp [tri]
    | some m =>
      by_cases h2 : o.price < m.price
      · simp [tri, h2]
      · simp [tri, h2]

/-- `firstMaxElem` is `none` exactly on the empty list. -/
theorem firstMaxElem_eq_none (l : List EventOdds) : firstMaxElem l = none ↔ l = [] := by
  cases l with
  | nil => simp [firstMaxElem]
  | cons o rest =>
    simp only [firstMaxElem]
    cases hfm : firstMaxElem rest with
    | none => simp
    | some m =>
      show (if o.price < m.price then some m else some o) = none ↔ o :: rest = []
      split_ifs <;> simp

/-- `firstMaxElem` returns a maximal row and every earlier row is strictly
cheaper (first-seen wins ties). -/
theorem firstMaxElem_spec (l : List EventOdds) (m : EventOdds)
    (h : firstMaxElem l = some m) :
    ∃ pre post, l = pre ++ m :: post ∧ (∀ x ∈ pre, x.price < m.price) ∧
      (∀ x ∈ l, x.price ≤ m.price) := by
  induction l generalizing m with
  | nil => simp [firstMaxElem] at h
  | cons a rest ih =>
    simp only [firstMaxElem] at h
    cases hfm : firstMaxElem rest with
    | none =>
      simp only [hfm] at h
      obtain rfl : a = m := by simpa using h
      have : rest = [] := (firstMaxElem_eq_none rest).mp hfm
      subst this
      exact ⟨[], [], rfl, by simp, by simp⟩
    | some m0 =>
      simp only [hfm] at h
      obtain ⟨pre, post, hsplit, hpre, hall⟩ := ih m0 hfm
      by_cases hlt : a.price < m0.price
      · rw [if_pos hlt] at h
        obtain rfl : m0 = m := by simpa using h
        refine ⟨a :: pre, post, by rw [hsplit, List.cons_append], ?_, ?_⟩
        · intro x hx
          rcases List.mem_cons.mp hx with rfl | hx
          · exact hlt
          · exact hpre x hx
        · intro x hx
          rcases List.mem_cons.mp hx with rfl | hx
          · exact hlt.le
          · exact hall x hx
      · rw [if_neg hlt] at h
        obtain rfl : a = m := by simpa using h
        push_neg at hlt
        refine ⟨[], rest, rfl, by simp, ?_⟩
        intro x hx
        rcases List.mem_cons.mp hx with rfl | hx
        · exact le_refl _
        · exact le_trans (hall x hx) hlt

/-- **C5**: for a bet option that is non-empty after space-trimming,
`pickBestOdds` errors exactly when no odds row matches (by case-insensitive
trimmed name equality or the win/lose option-type map for YES/NO), and
otherwise returns the platform, price and original option name of the
first matching row with the maximal price. -/
theorem c5_pick_best_odds (odds : List EventOdds) (betOption : String)
    (hbet : goTrimSpaces betOption ≠ "") :
    (∀ msg, pickBestOdds odds betOption = .error msg →
      odds.filter (oddsMatches (goToUpper (goTrimSpaces betOption))) = []) ∧
    (odds.filter (oddsMatches (goToUpper (goTrimSpaces betOption))) = [] →
      ∃ msg, pickBestOdds odds betOption = .error msg) ∧
    (∀ pid price name, pickBestOdds odds betOption = .ok (pid, price, name) →
      ∃ pre o post,
        odds.filter (oddsMatches (goToUpper (goTrimSpaces betOption))) = pre ++ o :: post ∧
        pid = o.platformID ∧ price = o.price ∧ name = o.optionName ∧
        (∀ x ∈ pre, x.price < o.price) ∧
        (∀ x ∈ odds.filter (oddsMatches (goToUpper (goTrimSpaces betOption))),
          x.price ≤ o.price)) := by
  have hpick : pickBestOdds odds betOption =
      match (firstMaxElem (odds.filter (oddsMatches (goToUpper (goTrimSpaces betOption))))).map tri with
      | none => .error "no odds row matches the bet option"
      | some r => .ok r := by
    unfold pickBestOdds
    rw [if_neg hbet, pickBestLoop_eq_bestFoldTri, bestFoldTri_none]
  cases hfm : firstMaxElem (odds.filter (oddsMatches (goToUpper (goTrimSpaces betOption)))) with
  | none =>
    rw [hfm] at hpick
    have hempty := (firstMaxElem_eq_none _).mp hfm
    refine ⟨fun _ _ => hempty, fun _ => ⟨_, hpick⟩, ?_⟩
    intro pid price name hok
    rw [hpick] at hok
    simp at hok
  | some m =>
    rw [hfm] at hpick
    obtain ⟨pre, post, hsplit, hpreLt, hall⟩ := firstMaxElem_spec _ _ hfm
    refine ⟨?_, ?_, ?_⟩
    · intro msg hmsg
      rw [hpick] at hmsg
      simp at hmsg
    · intro hempty
      rw [hempty] at hfm
      simp [firstMaxElem] at hfm
    · intro pid price name hok
      rw [hpick] at hok
      have htri : tri m = (pid, price, name) := by simpa using hok
      refine ⟨pre, m, post, hsplit, ?_, ?_, ?_, hpreLt, hall⟩
      · exact (congrArg Prod.fst htri).symm
      · exact (congrArg (fun x => x.2.1) htri).symm
      · exact (congrArg (fun x => x.2.2) htri).symm

/-- Witness for **C5** on three concrete rows with a tie-free maximum. -/
theorem c5_pick_best_odds_witness :
    goTrimSpaces "yes" ≠ "" ∧
    pickBestOdds oddsW "yes" = .ok (2, 65, "YES") ∧
    (∃ pre o post,
      oddsW.filter (oddsMatches (goToUpper (goTrimSpaces "yes"))) = pre ++ o :: post ∧
      2 = o.platformID ∧ (65:ℚ) = o.price ∧ "YES" = o.optionName ∧
      (∀ x ∈ pre, x.price < o.price) ∧
      (∀ x ∈ oddsW.filter (oddsMatches (goToUpper (goTrimSpaces "yes"))), x.price ≤ o.price)) :=
  ⟨by decide, by decide, (c5_pick_best_odds oddsW "yes" (by decide)).2.2 2 65 "YES" (by decide)⟩

theorem place_sig_error (env : PlaceEnv) (db : DB) (req : PlaceOrderRequest)
    (ce : ContractEventR) (e : VerifyError)
    (h1 : req.contractOrderID ≠ "") (h2 : req.eventUUID ≠ "") (h3 : req.betOption ≠ "")
    (hs : req.signature ≠ "")
    (hce : lookupDeposit db req.contractOrderID = .ok ce)
    (hv : verifyOrderSignature env.now env.recover ce.userWallet req.messageToSign
      req.signature = .error e) :
    placeOrderFromFrontend env db req = (.error (.signatureInvalid e), db, []) := by
  unfold placeOrderFromFrontend
  rw [if_neg (by simp [h1, h2, h3])]
  simp only [hce]
  rw [if_neg hs, hv]

theorem place_sig_transparent (env : PlaceEnv) (db : DB) (req : PlaceOrderRequest)
    (ce : ContractEventR)
    (hce : lookupDeposit db req.contractOrderID = .ok ce)
    (hv : verifyOrderSignature env.now env.recover ce.userWallet req.messageToSign
      req.signature = .ok ()) :
    placeOrderFromFrontend env db req =
      placeOrderFromFrontend env db { req with signature := "" } := by
  obtain ⟨a, b, c, am, lo, m, s⟩ := req
  by_cases hs : s = ""
  · subst hs; rfl
  · unfold placeOrderFromFrontend
    simp only at hce hv ⊢
    simp only [hce]
    rw [if_neg hs, hv]
    rfl

theorem verify_ok_iff (now : Int) (recover : String → List Nat → Option String)
    (wallet msg sig : String) :
    verifyOrderSignature now recover wallet msg sig = .ok () ↔
      (wallet ≠ "" ∧ msg ≠ "" ∧ sig ≠ "" ∧
        ∃ bytes addr t, goHexDecode (drop0x sig) = some bytes ∧ 65 ≤ bytes.length ∧
          recover msg (normalizeSigV bytes) = some addr ∧ equalFold addr wallet = true ∧
          6 ≤ (colonParts msg).length ∧
          goParseInt64 ((colonParts msg).getLastD "") = some t ∧ now ≤ t) := by
  constructor
  · intro h
    unfold verifyOrderSignature at h
    by_cases h0 : wallet = "" ∨ msg = "" ∨ sig = ""
    · rw [if_pos h0] at h; simp at h
    · rw [if_neg h0] at h
      push_neg at h0
      refine ⟨h0.1, h0.2.1, h0.2.2, ?_⟩
      cases hdec : goHexDecode (drop0x sig) with
      | none => simp only [hdec] at h; simp at h
      | some bytes =>
        simp only [hdec] at h
        by_cases hlen : bytes.length < 65
        · rw [if_pos hlen] at h; simp at h
        · rw [if_neg hlen] at h
          cases hrec : recover msg (normalizeSigV bytes) with
          | none => simp only [hrec] at h; simp at h
          | some addr =>
            simp only [hrec] at h
            by_cases hfold : equalFold addr wallet = false
            · rw [if_pos hfold] at h; simp at h
            · rw [if_neg hfold] at h
              by_cases hparts : (colonParts msg).length < 6
              · rw [if_pos hparts] at h; simp at h
              · rw [if_neg hparts] at h
                cases hparse : goParseInt64 ((colonParts msg).getLastD "") with
                | none => simp only [hparse] at h; simp at h
                | some t =>
                  simp only [hparse] at h
                  by_cases hexp : t < now
                  · rw [if_pos hexp] at h; simp at h
                  · exact ⟨bytes, addr, t, rfl, not_lt.mp hlen,
                      hrec, Bool.not_eq_false _ |>.mp hfold, not_lt.mp hparts,
                      rfl, not_lt.mp hexp⟩
  · rintro ⟨h1, h2, h3, bytes, addr, t, hdec, hlen, hrec, hfold, hparts, hparse, hexp⟩
    unfold verifyOrderSignature
    rw [if_neg (by simp [h1, h2, h3])]
    simp only [hdec]
    rw [if_neg (not_lt.mpr hlen)]
    simp only [hrec, hfold]
    rw [if_neg (by simp)]
    rw [if_neg (not_lt.mpr hparts)]
    simp only [hparse]
    rw [if_neg (not_lt.mpr hexp)]

theorem verify_signer_mismatch (now : Int) (recover : String → List Nat → Option String)
    (wallet msg sig : String) (bytes : List Nat) (addr : String)
    (h1 : wallet ≠ "") (h2 : msg ≠ "") (h3 : sig ≠ "")
    (hdec : goHexDecode (drop0x sig) = some bytes) (hlen : 65 ≤ bytes.length)
    (hrec : recover msg (normalizeSigV bytes) = some addr)
    (hfold : equalFold addr wallet = false) :
    verifyOrderSignature now recover wallet msg sig = .error .signerMismatch := by
  unfold verifyOrderSignature
  rw [if_neg (by simp [h1, h2, h3])]
  simp only [hdec]
  rw [if_neg (not_lt.mpr hlen)]
  simp only [hrec, hfold]
  rw [if_pos trivial]

theorem verify_expired (now : Int) (recover : String → List Nat → Option String)
    (wallet msg sig : String) (bytes : List Nat) (addr : String) (t : Int)
    (h1 : wallet ≠ "") (h2 : msg ≠ "") (h3 : sig ≠ "")
    (hdec : goHexDecode (drop0x sig) = some bytes) (hlen : 65 ≤ bytes.length)
    (hrec : recover msg (normalizeSigV bytes) = some addr)
    (hfold : equalFold addr wallet = true)
    (hparts : 6 ≤ (colonParts msg).length)
    (hparse : goParseInt64 ((colonParts msg).getLastD "") = some t)
    (hexp : t < now) :
    verifyOrderSignature now recover wallet msg sig = .error .expired := by
  unfold verifyOrderSignature
  rw [if_neg (by simp [h1, h2, h3])]
  simp only [hdec]
  rw [if_neg (not_lt.mpr hlen)]
  simp only [hrec, hfold]
  rw [if_neg (by simp)]
  rw [if_neg (not_lt.mpr hparts)]
  simp only [hparse]
  rw [if_pos hexp]

theorem place_msg_irrelevant (env : PlaceEnv) (db : DB) (req : PlaceOrderRequest)
    (ce : ContractEventR) (m1 m2 : String)
    (hce : lookupDeposit db req.contractOrderID = .ok ce)
    (hveq : verifyOrderSignature env.now env.recover ce.userWallet m1 req.signature =
      verifyOrderSignature env.now env.recover ce.userWallet m2 req.signature) :
    placeOrderFromFrontend env db { req with messageToSign := m1 } =
      placeOrderFromFrontend env db { req with messageToSign := m2 } := by
  obtain ⟨a, b, c, am, lo, m0, s⟩ := req
  simp only at hce hveq ⊢
  by_cases hmp : a = "" ∨ b = "" ∨ c = ""
  · unfold placeOrderFromFrontend
    rw [if_pos hmp, if_pos hmp]
  · unfold placeOrderFromFrontend
    rw [if_neg hmp, if_neg hmp]
    simp only [hce]
    by_cases hs : s = ""
    · simp only [if_pos hs]
    · simp only [if_neg hs]
      rw [hveq]

theorem place_empty_sig_bypass (now : Int)
    (rec1 rec2 : String → List Nat → Option String)
    (lof : Option (Nat → Option (Nat → String → Except String (List LiveOddsRow))))
    (fiat : ℚ → String → Except String ℚ)
    (tas : Option (Nat → Option (AdapterPlaceRequest → Except String String)))
    (erp : Bool) (db : DB) (req : PlaceOrderRequest) (m : String)
    (hs : req.signature = "") :
    placeOrderFromFrontend ⟨now, rec1, lof, fiat, tas, erp⟩ db
        { req with messageToSign := m } =
      placeOrderFromFrontend ⟨now, rec2, lof, fiat, tas, erp⟩ db req := by
  obtain ⟨a, b, c, am, lo, m0, s⟩ := req
  simp only at hs
  subst hs
  rfl

/-- C2: with a deposit on file, a valid signature lets place behave exactly as
it would with the (unchecked) empty signature, so an otherwise-valid request
succeeds; a failing verification makes place return the signature error with
the store unchanged and no adapter call; and verification itself rejects a
recovered signer that differs from the deposit wallet and a trailing expiry
in the past. -/
theorem c2_signature_binding :
    (∀ (env : PlaceEnv) (db : DB) (req : PlaceOrderRequest) (ce : ContractEventR),
      lookupDeposit db req.contractOrderID = .ok ce →
      verifyOrderSignature env.now env.recover ce.userWallet req.messageToSign
        req.signature = .ok () →
      placeOrderFromFrontend env db req =
        placeOrderFromFrontend env db { req with signature := "" }) ∧
    (∀ (env : PlaceEnv) (db : DB) (req : PlaceOrderRequest) (ce : ContractEventR)
        (e : VerifyError),
      req.contractOrderID ≠ "" → req.eventUUID ≠ "" → req.betOption ≠ "" →
      req.signature ≠ "" →
      lookupDeposit db req.contractOrderID = .ok ce →
      verifyOrderSignature env.now env.recover ce.userWallet req.messageToSign
        req.signature = .error e →
      placeOrderFromFrontend env db req = (.error (.signatureInvalid e), db, [])) ∧
    (∀ (now : Int) (recover : String → List Nat → Option String)
        (wallet msg sig : String) (bytes : List Nat) (addr : String),
      wallet ≠ "" → msg ≠ "" → sig ≠ "" →
      goHexDecode (drop0x sig) = some bytes → 65 ≤ bytes.length →
      recover msg (normalizeSigV bytes) = some addr → equalFold addr wallet = false →
      verifyOrderSignature now recover wallet msg sig = .error .signerMismatch) ∧
    (∀ (now : Int) (recover : String → List Nat → Option String)
        (wallet msg sig : String) (bytes : List Nat) (addr : String) (t : Int),
      wallet ≠ "" → msg ≠ "" → sig ≠ "" →
      goHexDecode (drop0x sig) = some bytes → 65 ≤ bytes.length →
      recover msg (normalizeSigV bytes) = some addr → equalFold addr wallet = true →
      6 ≤ (colonParts msg).length →
      goParseInt64 ((colonParts msg).getLastD "") = some t → t < now →
      verifyOrderSignature now recover wallet msg sig = .error .expired) :=
  ⟨place_sig_transparent, place_sig_error, verify_signer_mismatch, verify_expired⟩

theorem c2_signature_binding_witness :
    placeOrderFromFrontend envSigSc dbSc reqSigSc =
        placeOrderFromFrontend envSigSc dbSc { reqSigSc with signature := "" } ∧
      placeOrderFromFrontend envEvilSc dbSc reqSigSc =
        (.error (.signatureInvalid .signerMismatch), dbSc, []) ∧
      verifyOrderSignature envEvilSc.now envEvilSc.recover ceSc.userWallet msgSc sigSc =
        .error .signerMismatch ∧
      verifyOrderSignature 100 recGood "0xW" msgSc sigSc = .error .expired := by
  have hmm : verifyOrderSignature envEvilSc.now envEvilSc.recover ceSc.userWallet msgSc
      sigSc = .error .signerMismatch :=
    c2_signature_binding.2.2.1 envEvilSc.now envEvilSc.recover ceSc.userWallet msgSc sigSc
      (List.replicate 65 17) "0xEVIL" (by decide) (by decide) (by decide) (by decide)
      (by decide) rfl (by decide)
  refine ⟨c2_signature_binding.1 envSigSc dbSc reqSigSc ceSc (by decide) (by decide),
    c2_signature_binding.2.1 envEvilSc dbSc reqSigSc ceSc .signerMismatch (by decide)
      (by decide) (by decide) (by decide) (by decide) hmm,
    hmm,
    c2_signature_binding.2.2.2 100 recGood "0xW" msgSc sigSc (List.replicate 65 17) "0xW" 99
      (by decide) (by decide) (by decide) (by decide) (by decide) rfl (by decide) (by decide)
      (by decide) (by decide)⟩

/-- C9: the signature check accepts exactly when the hex-decoded signature has
at least 65 bytes, the recovered signer case-insensitively equals the deposit
wallet, the message has at least six colon-separated parts, and its last part
parses to a not-yet-past timestamp — no message field is compared against the
request; consequently two messages with equal verification outcomes give
identical place results, and with an empty signature place ignores the
recovery oracle and the message entirely. -/
theorem c9_signature_scope :
    (∀ (now : Int) (recover : String → List Nat → Option String)
        (wallet msg sig : String),
      verifyOrderSignature now recover wallet msg sig = .ok () ↔
        (wallet ≠ "" ∧ msg ≠ "" ∧ sig ≠ "" ∧
          ∃ bytes addr t, goHexDecode (drop0x sig) = some bytes ∧ 65 ≤ bytes.length ∧
            recover msg (normalizeSigV bytes) = some addr ∧
            equalFold addr wallet = true ∧
            6 ≤ (colonParts msg).length ∧
            goParseInt64 ((colonParts msg).getLastD "") = some t ∧ now ≤ t)) ∧
    (∀ (env : PlaceEnv) (db : DB) (req : PlaceOrderRequest) (ce : ContractEventR)
        (m1 m2 : String),
      lookupDeposit db req.contractOrderID = .ok ce →
      verifyOrderSignature env.now env.recover ce.userWallet m1 req.signature =
        verifyOrderSignature env.now env.recover ce.userWallet m2 req.signature →
      placeOrderFromFrontend env db { req with messageToSign := m1 } =
        placeOrderFromFrontend env db { req with messageToSign := m2 }) ∧
    (∀ (now : Int) (rec1 rec2 : String → List Nat → Option String)
        (lof : Option (Nat → Option (Nat → String → Except String (List LiveOddsRow))))
        (fiat : ℚ → String → Except String ℚ)
        (tas : Option (Nat → Option (AdapterPlaceRequest → Except String String)))
        (erp : Bool) (db : DB) (req : PlaceOrderRequest) (m : String),
      req.signature = "" →
      placeOrderFromFrontend ⟨now, rec1, lof, fiat, tas, erp⟩ db
          { req with messageToSign := m } =
        placeOrderFromFrontend ⟨now, rec2, lof, fiat, tas, erp⟩ db req) :=
  ⟨verify_ok_iff, place_msg_irrelevant, place_empty_sig_bypass⟩

theorem c9_signature_scope_witness :
    verifyOrderSignature 0 recGood "0xW" msgSc sigSc = .ok () ∧
      placeOrderFromFrontend envSigSc dbSc { reqSc with messageToSign := "tampered" } =
        placeOrderFromFrontend envSigSc dbSc { reqSc with messageToSign := "other" } ∧
      placeOrderFromFrontend
          ⟨0, recEvil, envSc.liveOddsFetchers, envSc.fiatConvertToUSD,
            envSc.tradingAdapters, envSc.eventRepoPresent⟩ dbSc
          { reqSc with messageToSign := "garbage" } =
        placeOrderFromFrontend
          ⟨0, recGood, envSc.liveOddsFetchers, envSc.fiatConvertToUSD,
            envSc.tradingAdapters, envSc.eventRepoPresent⟩ dbSc reqSc := by
  refine ⟨(c9_signature_scope.1 0 recGood "0xW" msgSc sigSc).mpr
      ⟨by decide, by decide, by decide, List.replicate 65 17, "0xW", 99,
        by decide, by decide, rfl, by decide, by decide, by decide, by decide⟩,
    c9_signature_scope.2.1 envSigSc dbSc reqSc ceSc "tampered" "other" (by decide)
      (by decide),
    c9_signature_scope.2.2 0 recEvil recGood envSc.liveOddsFetchers
      envSc.fiatConvertToUSD envSc.tradingAdapters envSc.eventRepoPresent dbSc reqSc
      "garbage" rfl⟩

theorem goSpace_char_cases (c : Char) (h : isGoSpace c = true) :
    c = ' ' ∨ c = '\t' ∨ c = '\n' ∨ c = '\x0b' ∨ c = '\x0c' ∨ c = '\r' := by
  simp only [isGoSpace, Bool.or_eq_true, decide_eq_true_eq] at h
  tauto

theorem goSpace_not_alnum (c : Char) (h : isGoSpace c = true) : isLowerAlnum c = false := by
  rcases goSpace_char_cases c h with rfl | rfl | rfl | rfl | rfl | rfl <;> decide

theorem alnum_not_goSpace (c : Char) (h : isLowerAlnum c = true) : isGoSpace c = false := by
  cases hs : isGoSpace c
  · rfl
  · rw [goSpace_not_alnum c hs] at h; cases h

theorem reSpace_char_cases (c : Char) (h : isReSpace c = true) :
    c = '\t' ∨ c = '\n' ∨ c = '\x0c' ∨ c = '\r' ∨ c = ' ' := by
  simp only [isReSpace, Bool.or_eq_true, decide_eq_true_eq] at h
  tauto

theorem reSpace_not_alnum (c : Char) (h : isReSpace c = true) : isLowerAlnum c = false := by
  rcases reSpace_char_cases c h with rfl | rfl | rfl | rfl | rfl <;> decide

theorem alnum_not_reSpace (c : Char) (h : isLowerAlnum c = true) : isReSpace c = false := by
  cases hs : isReSpace c
  · rfl
  · rw [reSpace_not_alnum c hs] at h; cases h

theorem alnum_nonword_false (c : Char) (h : isLowerAlnum c = true) :
    (!(isLowerAlnum c) && !(isReSpace c)) = false := by
  rw [h]; rfl

theorem nonalnum_nonword_false_reSpace (c : Char) (h1 : isLowerAlnum c = false)
    (h2 : (!(isLowerAlnum c) && !(isReSpace c)) = false) : isReSpace c = true := by
  rw [h1] at h2
  simpa using h2

theorem toLower_of_goSpace (c : Char) (h : isGoSpace c = true) : Char.toLower c = c := by
  rcases goSpace_char_cases c h with rfl | rfl | rfl | rfl | rfl | rfl <;> decide

theorem collapseRuns_cons_neg (p : Char → Bool) (b : Bool) (c : Char) (l : List Char)
    (h : p c = false) : collapseRuns p b (c :: l) = c :: collapseRuns p false l := by
  simp [collapseRuns, h]

theorem collapseRuns_cons_pos_false (p : Char → Bool) (c : Char) (l : List Char)
    (h : p c = true) : collapseRuns p false (c :: l) = ' ' :: collapseRuns p true l := by
  simp [collapseRuns, h]

theorem collapseRuns_cons_pos_true (p : Char → Bool) (c : Char) (l : List Char)
    (h : p c = true) : collapseRuns p true (c :: l) = collapseRuns p true l := by
  simp [collapseRuns, h]

theorem collapseRuns_pfalse_front (p : Char → Bool) (l1 l2 : List Char)
    (h : ∀ c ∈ l1, p c = false) :
    collapseRuns p false (l1 ++ l2) = l1 ++ collapseRuns p false l2 := by
  induction l1 with
  | nil => simp
  | cons c l1' ih =>
    rw [List.cons_append, collapseRuns_cons_neg p false c _ (h c (by simp)),
      ih (fun d hd => h d (by simp [hd])), List.cons_append]

theorem collapseRuns_state_irrel (p : Char → Bool) (b : Bool) (l : List Char)
    (hl : l = [] ∨ ∃ d t, l = d :: t ∧ p d = false) :
    collapseRuns p b l = collapseRuns p false l := by
  rcases hl with rfl | ⟨d, t, rfl, hd⟩
  · cases b <;> rfl
  · rw [collapseRuns_cons_neg p b d t hd, collapseRuns_cons_neg p false d t hd]

theorem collapse_q_sep (sep : List Char) :
    ∀ (b : Bool) (rest2 : List Char),
    (∀ c ∈ sep, isLowerAlnum c = false) →
    (rest2 = [] ∨ ∃ d t, rest2 = d :: t ∧ (!(isLowerAlnum d) && !(isReSpace d)) = false) →
    ∃ out, (∀ c ∈ out, isReSpace c = true) ∧
      collapseRuns (fun c => !(isLowerAlnum c) && !(isReSpace c)) b (sep ++ rest2) =
        out ++ collapseRuns (fun c => !(isLowerAlnum c) && !(isReSpace c)) false rest2 ∧
      (b = false → sep ≠ [] → out ≠ []) := by
  induction sep with
  | nil =>
    intro b rest2 _ hrest
    exact ⟨[], by simp, by
      simpa using collapseRuns_state_irrel _ b rest2 hrest,
      fun _ h => absurd rfl h⟩
  | cons c sep' ih =>
    intro b rest2 hsep hrest
    have hc : isLowerAlnum c = false := hsep c (by simp)
    have hsep' : ∀ d ∈ sep', isLowerAlnum d = false := fun d hd => hsep d (by simp [hd])
    by_cases hq : (!(isLowerAlnum c) && !(isReSpace c)) = true
    · obtain ⟨out, ho, he, _⟩ := ih true rest2 hsep' hrest
      cases b with
      | true =>
        refine ⟨out, ho, ?_, by simp⟩
        rw [List.cons_append, collapseRuns_cons_pos_true _ _ _ hq, he]
      | false =>
        refine ⟨' ' :: out, ?_, ?_, fun _ _ => by simp⟩
        · intro d hd
          rcases List.mem_cons.mp hd with rfl | hd
          · decide
          · exact ho d hd
        · rw [List.cons_append, collapseRuns_cons_pos_false _ _ _ hq, he, List.cons_append]
    · have hq' : (!(isLowerAlnum c) && !(isReSpace c)) = false := by
        cases hqq : (!(isLowerAlnum c) && !(isReSpace c))
        · rfl
        · exact absurd hqq hq
      have hre : isReSpace c = true := nonalnum_nonword_false_reSpace c hc hq'
      obtain ⟨out, ho, he, _⟩ := ih false rest2 hsep' hrest
      refine ⟨c :: out, ?_, ?_, fun _ _ => by simp⟩
      · intro d hd
        rcases List.mem_cons.mp hd with rfl | hd
        · exact hre
        · exact ho d hd
      · rw [List.cons_append, collapseRuns_cons_neg _ _ _ _ hq', he, List.cons_append]

theorem collapse_re_skiprun (out : List Char) :
    ∀ X : List Char, (∀ c ∈ out, isReSpace c = true) →
    collapseRuns isReSpace true (out ++ X) = collapseRuns isReSpace true X := by
  induction out with
  | nil => intro X _; simp
  | cons c out' ih =>
    intro X h
    rw [List.cons_append, collapseRuns_cons_pos_true _ _ _ (h c (by simp)),
      ih X (fun d hd => h d (by simp [hd]))]

theorem collapse_re_sep (out X : List Char) (hne : out ≠ [])
    (h : ∀ c ∈ out, isReSpace c = true)
    (hX : X = [] ∨ ∃ d t, X = d :: t ∧ isReSpace d = false) :
    collapseRuns isReSpace false (out ++ X) = ' ' :: collapseRuns isReSpace false X := by
  obtain ⟨c, out', rfl⟩ := List.exists_cons_of_ne_nil hne
  rw [List.cons_append, collapseRuns_cons_pos_false _ _ _ (h c (by simp)),
    collapse_re_skiprun out' X (fun d hd => h d (by simp [hd])),
    collapseRuns_state_irrel isReSpace true X hX]

theorem wordsAux_word_front (wd : List Char) :
    ∀ (acc rest : List Char), (∀ c ∈ wd, isLowerAlnum c = true) →
    wordsAux acc (wd ++ rest) = wordsAux (wd.reverse ++ acc) rest := by
  induction wd with
  | nil => simp
  | cons c wd' ih =>
    intro acc rest h
    rw [List.cons_append]
    simp only [wordsAux, h c (by simp), if_true]
    rw [ih (c :: acc) rest (fun d hd => h d (by simp [hd]))]
    simp [List.append_assoc]

theorem wordsAux_all_nonal (tail : List Char) (h : ∀ c ∈ tail, isLowerAlnum c = false) :
    ∀ acc, wordsAux acc tail = if acc = [] then [] else [acc.reverse] := by
  induction tail with
  | nil => intro acc; simp [wordsAux]
  | cons c t ih =>
    intro acc
    simp only [wordsAux, h c (by simp), Bool.false_eq_true, if_false]
    by_cases hacc : acc = []
    · simp [hacc, ih (fun d hd => h d (by simp [hd])) []]
    · simp [hacc, ih (fun d hd => h d (by simp [hd])) []]

theorem wordsAux_append_nonal (l : List Char) (tail : List Char)
    (h : ∀ c ∈ tail, isLowerAlnum c = false) :
    ∀ acc, wordsAux acc (l ++ tail) = wordsAux acc l := by
  induction l with
  | nil =>
    intro acc
    rw [List.nil_append, wordsAux_all_nonal tail h acc]
    simp [wordsAux]
  | cons c l' ih =>
    intro acc
    rw [List.cons_append]
    simp only [wordsAux]
    by_cases h1 : isLowerAlnum c = true <;> by_cases h2 : acc = [] <;>
      simp [h1, h2, ih]

theorem words_drop_nonal (sep : List Char) :
    ∀ rest : List Char, (∀ c ∈ sep, isLowerAlnum c = false) →
    wordsAux [] (sep ++ rest) = wordsAux [] rest := by
  induction sep with
  | nil => intro rest _; rfl
  | cons c sep' ih =>
    intro rest h
    rw [List.cons_append]
    simp only [wordsAux, h c (by simp), Bool.false_eq_true, if_false, if_pos rfl]
    exact ih rest (fun d hd => h d (by simp [hd]))

theorem wordsAux_ne_nil (l : List Char) :
    ∀ acc, acc ≠ [] → wordsAux acc l ≠ [] := by
  induction l with
  | nil => intro acc h; simp [wordsAux, h]
  | cons c t ih =>
    intro acc h
    simp only [wordsAux]
    by_cases hc : isLowerAlnum c = true
    · simp only [hc, if_true]
      exact ih (c :: acc) (by simp)
    · simp [hc, h]

theorem words_word_front (wd rest : List Char) (hne : wd ≠ [])
    (hwd : ∀ c ∈ wd, isLowerAlnum c = true)
    (hrest : rest = [] ∨ ∃ d t, rest = d :: t ∧ isLowerAlnum d = false) :
    wordsAux [] (wd ++ rest) = wd :: wordsAux [] rest := by
  rw [wordsAux_word_front wd [] rest hwd, List.append_nil]
  rcases hrest with rfl | ⟨d, t, rfl, hd⟩
  · simp [wordsAux, List.reverse_eq_nil_iff, hne]
  · simp [wordsAux, hd, List.reverse_eq_nil_iff, hne]

theorem renderWords_cons (wd : List Char) (ws : List (List Char)) :
    renderWords (wd :: ws) = wd ++ (if ws = [] then [] else ' ' :: renderWords ws) := by
  cases ws with
  | nil => simp [renderWords]
  | cons y ys => simp [renderWords]

theorem rdropWhile_append_ne (p : Char → Bool) (l1 l2 : List Char)
    (h : l2.rdropWhile p ≠ []) :
    (l1 ++ l2).rdropWhile p = l1 ++ l2.rdropWhile p := by
  have hne : List.dropWhile p l2.reverse ≠ [] := by
    intro hx
    apply h
    unfold List.rdropWhile
    rw [hx]
    rfl
  unfold List.rdropWhile
  rw [List.reverse_append, List.dropWhile_append,
    if_neg (by simp [List.isEmpty_iff, hne]), List.reverse_append,
    List.reverse_reverse]

theorem rdropWhile_decomp (p : Char → Bool) (l : List Char) :
    ∃ suf, (∀ c ∈ suf, p c = true) ∧ l = l.rdropWhile p ++ suf := by
  refine ⟨(l.reverse.takeWhile p).reverse, ?_, ?_⟩
  · intro c hc
    rw [List.mem_reverse] at hc
    exact List.mem_takeWhile_imp hc
  · conv_lhs => rw [← l.reverse_reverse, ← List.takeWhile_append_dropWhile p l.reverse]
    rw [List.reverse_append]
    rfl

theorem map_toLower_of_goSpace (l : List Char) (h : ∀ c ∈ l, isGoSpace c = true) :
    l.map Char.toLower = l := by
  induction l with
  | nil => rfl
  | cons c t ih =>
    rw [List.map_cons, toLower_of_goSpace c (h c (by simp)),
      ih (fun d hd => h d (by simp [hd]))]

theorem dropWhile_head_false (p : Char → Bool) :
    ∀ (l : List Char) (d : Char) (t : List Char), l.dropWhile p = d :: t → p d = false := by
  intro l
  induction l with
  | nil => intro d t h; simp at h
  | cons c cs ih =>
    intro d t h
    rw [List.dropWhile_cons] at h
    by_cases hc : p c = true
    · rw [if_pos hc] at h
      exact ih d t h
    · rw [if_neg hc] at h
      cases h
      cases hp : p c
      · rfl
      · exact absurd hp hc

theorem pipe_trim_norm : ∀ (n : Nat) (w : List Char), w.length ≤ n →
    ((collapseRuns isReSpace false
        (collapseRuns (fun c => !(isLowerAlnum c) && !(isReSpace c)) false w)).dropWhile
          isGoSpace).rdropWhile isGoSpace = renderWords (wordsAux [] w) := by
  intro n
  induction n with
  | zero =>
    intro w hw
    have hnil : w = [] := List.length_eq_zero.mp (Nat.le_zero.mp hw)
    subst hnil
    rfl
  | succ n ih =>
    intro w hw
    rcases w with _ | ⟨c, w'⟩
    · rfl
    cases hal : isLowerAlnum c with
    | false =>
      have hsplit : (c :: w').takeWhile (fun d => !(isLowerAlnum d)) ++
          (c :: w').dropWhile (fun d => !(isLowerAlnum d)) = c :: w' :=
        List.takeWhile_append_dropWhile _ _
      have hsep_eq : (c :: w').takeWhile (fun d => !(isLowerAlnum d)) =
          c :: w'.takeWhile (fun d => !(isLowerAlnum d)) :=
        List.takeWhile_cons_of_pos (by rw [hal]; rfl)
      have hsep_ne : (c :: w').takeWhile (fun d => !(isLowerAlnum d)) ≠ [] := by
        rw [hsep_eq]; simp
      have hsep_all : ∀ d ∈ (c :: w').takeWhile (fun d => !(isLowerAlnum d)),
          isLowerAlnum d = false := by
        intro d hd
        have := List.mem_takeWhile_imp hd
        simpa using this
      have hrest2 : (c :: w').dropWhile (fun d => !(isLowerAlnum d)) = [] ∨
          ∃ d t, (c :: w').dropWhile (fun d => !(isLowerAlnum d)) = d :: t ∧
            isLowerAlnum d = true := by
        rcases hre : (c :: w').dropWhile (fun d => !(isLowerAlnum d)) with _ | ⟨d, t⟩
        · exact Or.inl rfl
        · refine Or.inr ⟨d, t, rfl, ?_⟩
          have := dropWhile_head_false _ _ _ _ hre
          simpa using this
      have hq_rest2 : (c :: w').dropWhile (fun d => !(isLowerAlnum d)) = [] ∨
          ∃ d t, (c :: w').dropWhile (fun d => !(isLowerAlnum d)) = d :: t ∧
            (!(isLowerAlnum d) && !(isReSpace d)) = false := by
        rcases hrest2 with h | ⟨d, t, he, hd⟩
        · exact Or.inl h
        · exact Or.inr ⟨d, t, he, alnum_nonword_false d hd⟩
      obtain ⟨out, hout_re, heq1, houtne⟩ :=
        collapse_q_sep ((c :: w').takeWhile (fun d => !(isLowerAlnum d))) false
          ((c :: w').dropWhile (fun d => !(isLowerAlnum d))) hsep_all hq_rest2
      have hout_ne : out ≠ [] := houtne rfl hsep_ne
      have hX1 : collapseRuns (fun c => !(isLowerAlnum c) && !(isReSpace c)) false
            ((c :: w').dropWhile (fun d => !(isLowerAlnum d))) = [] ∨
          ∃ d t, collapseRuns (fun c => !(isLowerAlnum c) && !(isReSpace c)) false
            ((c :: w').dropWhile (fun d => !(isLowerAlnum d))) = d :: t ∧
            isReSpace d = false := by
        rcases hrest2 with h | ⟨d, t, he, hd⟩
        · rw [h]; exact Or.inl rfl
        · refine Or.inr ⟨d,
            collapseRuns (fun c => !(isLowerAlnum c) && !(isReSpace c)) false t, ?_,
            alnum_not_reSpace d hd⟩
          rw [he, collapseRuns_cons_neg _ _ _ _ (alnum_nonword_false d hd)]
      have heq2 := collapse_re_sep out _ hout_ne hout_re hX1
      rw [← hsplit, heq1, heq2, List.dropWhile_cons, if_pos (by decide),
        words_drop_nonal _ _ hsep_all]
      rcases hrest2 with h | ⟨d, t, he, hd⟩
      · rw [h]; rfl
      · have h1 : collapseRuns (fun c => !(isLowerAlnum c) && !(isReSpace c)) false (d :: t) =
            d :: collapseRuns (fun c => !(isLowerAlnum c) && !(isReSpace c)) false t :=
          collapseRuns_cons_neg _ _ _ _ (alnum_nonword_false d hd)
        have h2 : collapseRuns isReSpace false
              (d :: collapseRuns (fun c => !(isLowerAlnum c) && !(isReSpace c)) false t) =
            d :: collapseRuns isReSpace false
              (collapseRuns (fun c => !(isLowerAlnum c) && !(isReSpace c)) false t) :=
          collapseRuns_cons_neg _ _ _ _ (alnum_not_reSpace d hd)
        have hlen : (d :: t).length ≤ n := by
          have hl1 := congrArg List.length hsplit
          have hl2 := congrArg List.length he
          have hl3 : 1 ≤ ((c :: w').takeWhile (fun d => !(isLowerAlnum d))).length := by
            rcases List.exists_cons_of_ne_nil hsep_ne with ⟨x, xs, hx⟩
            rw [hx]; simp
          simp only [List.length_append, List.length_cons] at hl1 hl2
          simp only [List.length_cons] at hw ⊢
          omega
        have hih := ih (d :: t) hlen
        rw [h1, h2, List.dropWhile_cons,
          if_neg (by simp [alnum_not_goSpace d hd])] at hih
        rw [he, h1, h2, List.dropWhile_cons,
          if_neg (by simp [alnum_not_goSpace d hd])]
        exact hih
    | true =>
      have hsplit : (c :: w').takeWhile isLowerAlnum ++
          (c :: w').dropWhile isLowerAlnum = c :: w' :=
        List.takeWhile_append_dropWhile _ _
      have hwd_eq : (c :: w').takeWhile isLowerAlnum = c :: w'.takeWhile isLowerAlnum :=
        List.takeWhile_cons_of_pos hal
      have hwd_ne : (c :: w').takeWhile isLowerAlnum ≠ [] := by rw [hwd_eq]; simp
      have hwd_all : ∀ d ∈ (c :: w').takeWhile isLowerAlnum, isLowerAlnum d = true :=
        fun d hd => List.mem_takeWhile_imp hd
      have hwd_q : ∀ d ∈ (c :: w').takeWhile isLowerAlnum,
          (!(isLowerAlnum d) && !(isReSpace d)) = false :=
        fun d hd => alnum_nonword_false d (hwd_all d hd)
      have hwd_re : ∀ d ∈ (c :: w').takeWhile isLowerAlnum, isReSpace d = false :=
        fun d hd => alnum_not_reSpace d (hwd_all d hd)
      have hC1 : collapseRuns (fun c => !(isLowerAlnum c) && !(isReSpace c)) false
            ((c :: w').takeWhile isLowerAlnum ++ (c :: w').dropWhile isLowerAlnum) =
          (c :: w').takeWhile isLowerAlnum ++
            collapseRuns (fun c => !(isLowerAlnum c) && !(isReSpace c)) false
              ((c :: w').dropWhile isLowerAlnum) :=
        collapseRuns_pfalse_front _ _ _ hwd_q
      have hdropwd : ∀ Z : List Char,
          ((c :: w').takeWhile isLowerAlnum ++ Z).dropWhile isGoSpace =
            (c :: w').takeWhile isLowerAlnum ++ Z := by
        intro Z
        rw [hwd_eq, List.cons_append, List.dropWhile_cons,
          if_neg (by simp [alnum_not_goSpace c hal])]
      have hrdwd : ((c :: w').takeWhile isLowerAlnum).rdropWhile isGoSpace =
          (c :: w').takeWhile isLowerAlnum :=
        List.rdropWhile_eq_self_iff.mpr (fun hll => by
          simp [alnum_not_goSpace _ (hwd_all _ (List.getLast_mem hll))])
      have hrest : (c :: w').dropWhile isLowerAlnum = [] ∨
          ∃ d t, (c :: w').dropWhile isLowerAlnum = d :: t ∧ isLowerAlnum d = false := by
        rcases hre : (c :: w').dropWhile isLowerAlnum with _ | ⟨d, t⟩
        · exact Or.inl rfl
        · exact Or.inr ⟨d, t, rfl, dropWhile_head_false _ _ _ _ hre⟩
      rcases hrest with hre | ⟨d, t, hre, hd⟩
      · have hz0 : collapseRuns (fun c => !(isLowerAlnum c) && !(isReSpace c)) false
            ([] : List Char) = [] := rfl
        rw [← hsplit, hC1, hre, hz0, List.append_nil]
        have hC2 : collapseRuns isReSpace false ((c :: w').takeWhile isLowerAlnum) =
            (c :: w').takeWhile isLowerAlnum := by
          have := collapseRuns_pfalse_front isReSpace
            ((c :: w').takeWhile isLowerAlnum) [] hwd_re
          simpa [collapseRuns] using this
        rw [hC2]
        have := hdropwd []
        rw [List.append_nil] at this
        rw [this, hrdwd]
        have hw1 := words_word_front ((c :: w').takeWhile isLowerAlnum) []
          hwd_ne hwd_all (Or.inl rfl)
        have hz3 : wordsAux [] ([] : List Char) = [] := rfl
        rw [List.append_nil, hz3] at hw1
        rw [hw1]
        rfl
      · -- rest = d :: t with a non-alnum head: split off the separator run
        have hsplit2 : (d :: t).takeWhile (fun x => !(isLowerAlnum x)) ++
            (d :: t).dropWhile (fun x => !(isLowerAlnum x)) = d :: t :=
          List.takeWhile_append_dropWhile _ _
        have hsep2_eq : (d :: t).takeWhile (fun x => !(isLowerAlnum x)) =
            d :: t.takeWhile (fun x => !(isLowerAlnum x)) :=
          List.takeWhile_cons_of_pos (by rw [hd]; rfl)
        have hsep2_ne : (d :: t).takeWhile (fun x => !(isLowerAlnum x)) ≠ [] := by
          rw [hsep2_eq]; simp
        have hsep2_all : ∀ x ∈ (d :: t).takeWhile (fun x => !(isLowerAlnum x)),
            isLowerAlnum x = false := by
          intro x hx
          have := List.mem_takeWhile_imp hx
          simpa using this
        have hrest2 : (d :: t).dropWhile (fun x => !(isLowerAlnum x)) = [] ∨
            ∃ e t2, (d :: t).dropWhile (fun x => !(isLowerAlnum x)) = e :: t2 ∧
              isLowerAlnum e = true := by
          rcases hre2 : (d :: t).dropWhile (fun x => !(isLowerAlnum x)) with _ | ⟨e, t2⟩
          · exact Or.inl rfl
          · refine Or.inr ⟨e, t2, rfl, ?_⟩
            have := dropWhile_head_false _ _ _ _ hre2
            simpa using this
        have hq_rest2 : (d :: t).dropWhile (fun x => !(isLowerAlnum x)) = [] ∨
            ∃ e t2, (d :: t).dropWhile (fun x => !(isLowerAlnum x)) = e :: t2 ∧
              (!(isLowerAlnum e) && !(isReSpace e)) = false := by
          rcases hrest2 with h | ⟨e, t2, he, hee⟩
          · exact Or.inl h
          · exact Or.inr ⟨e, t2, he, alnum_nonword_false e hee⟩
        obtain ⟨out, hout_re, heq1, houtne⟩ :=
          collapse_q_sep ((d :: t).takeWhile (fun x => !(isLowerAlnum x))) false
            ((d :: t).dropWhile (fun x => !(isLowerAlnum x))) hsep2_all hq_rest2
        have hout_ne : out ≠ [] := houtne rfl hsep2_ne
        have hX1 : collapseRuns (fun c => !(isLowerAlnum c) && !(isReSpace c)) false
              ((d :: t).dropWhile (fun x => !(isLowerAlnum x))) = [] ∨
            ∃ e t2, collapseRuns (fun c => !(isLowerAlnum c) && !(isReSpace c)) false
              ((d :: t).dropWhile (fun x => !(isLowerAlnum x))) = e :: t2 ∧
              isReSpace e = false := by
          rcases hrest2 with h | ⟨e, t2, he, hee⟩
          · rw [h]; exact Or.inl rfl
          · refine Or.inr ⟨e,
              collapseRuns (fun c => !(isLowerAlnum c) && !(isReSpace c)) false t2, ?_,
              alnum_not_reSpace e hee⟩
            rw [he, collapseRuns_cons_neg _ _ _ _ (alnum_nonword_false e hee)]
        have heq2 := collapse_re_sep out _ hout_ne hout_re hX1
        rw [← hsplit, hC1, hre, ← hsplit2, heq1,
          collapseRuns_pfalse_front isReSpace _ _ hwd_re, heq2,
          hdropwd _,
          words_word_front _ _ hwd_ne hwd_all
            (Or.inr ⟨d, t.takeWhile (fun x => !(isLowerAlnum x)) ++
              (d :: t).dropWhile (fun x => !(isLowerAlnum x)), by rw [hsep2_eq]; rfl, hd⟩),
          words_drop_nonal _ _ hsep2_all]
        rcases hrest2 with hnil2 | ⟨e, t2, he2, hee⟩
        · rw [hnil2]
          have hz1 : collapseRuns (fun c => !(isLowerAlnum c) && !(isReSpace c)) false
              ([] : List Char) = [] := rfl
          have hz2 : collapseRuns isReSpace false ([] : List Char) = [] := rfl
          have hz3 : wordsAux [] ([] : List Char) = [] := rfl
          rw [hz1, hz2, hz3,
            List.rdropWhile_concat_pos isGoSpace _ ' ' (by decide), hrdwd]
          rfl
        · rw [he2]
          have h1 : collapseRuns (fun c => !(isLowerAlnum c) && !(isReSpace c)) false
                (e :: t2) =
              e :: collapseRuns (fun c => !(isLowerAlnum c) && !(isReSpace c)) false t2 :=
            collapseRuns_cons_neg _ _ _ _ (alnum_nonword_false e hee)
          have h2 : collapseRuns isReSpace false
                (e :: collapseRuns (fun c => !(isLowerAlnum c) && !(isReSpace c)) false t2) =
              e :: collapseRuns isReSpace false
                (collapseRuns (fun c => !(isLowerAlnum c) && !(isReSpace c)) false t2) :=
            collapseRuns_cons_neg _ _ _ _ (alnum_not_reSpace e hee)
          have hlen : (e :: t2).length ≤ n := by
            have hl1 := congrArg List.length hsplit
            have hl2 := congrArg List.length hre
            have hl3 := congrArg List.length hsplit2
            have hl4 := congrArg List.length he2
            have hl5 := congrArg List.length hwd_eq
            have hl6 := congrArg List.length hsep2_eq
            simp only [List.length_append, List.length_cons] at hl1 hl2 hl3 hl4 hl5 hl6 ⊢
            simp only [List.length_cons] at hw
            omega
          have hih := ih (e :: t2) hlen
          rw [h1, h2, List.dropWhile_cons,
            if_neg (by simp [alnum_not_goSpace e hee])] at hih
          have hYne : (e :: collapseRuns isReSpace false
              (collapseRuns (fun c => !(isLowerAlnum c) && !(isReSpace c)) false
                t2)).rdropWhile isGoSpace ≠ [] := by
            intro hx
            have hsp := List.rdropWhile_eq_nil_iff.mp hx e (by simp)
            rw [alnum_not_goSpace e hee] at hsp
            cases hsp
          have haveA := rdropWhile_append_ne isGoSpace [' ']
            (e :: collapseRuns isReSpace false
              (collapseRuns (fun c => !(isLowerAlnum c) && !(isReSpace c)) false t2)) hYne
          have haveAne : ([' '] ++ (e :: collapseRuns isReSpace false
              (collapseRuns (fun c => !(isLowerAlnum c) && !(isReSpace c)) false
                t2))).rdropWhile isGoSpace ≠ [] := by
            rw [haveA]; simp
          have haveB := rdropWhile_append_ne isGoSpace
            ((c :: w').takeWhile isLowerAlnum)
            ([' '] ++ (e :: collapseRuns isReSpace false
              (collapseRuns (fun c => !(isLowerAlnum c) && !(isReSpace c)) false t2)))
            haveAne
          have hwne : wordsAux [] (e :: t2) ≠ [] := by
            simp only [wordsAux, hee, if_true]
            exact wordsAux_ne_nil t2 [e] (by simp)
          rw [h1, h2]
          calc ((c :: w').takeWhile isLowerAlnum ++
                (' ' :: e :: collapseRuns isReSpace false
                  (collapseRuns (fun c => !(isLowerAlnum c) && !(isReSpace c)) false
                    t2))).rdropWhile isGoSpace
              = ((c :: w').takeWhile isLowerAlnum ++
                ([' '] ++ (e :: collapseRuns isReSpace false
                  (collapseRuns (fun c => !(isLowerAlnum c) && !(isReSpace c)) false
                    t2)))).rdropWhile isGoSpace := rfl
            _ = (c :: w').takeWhile isLowerAlnum ++
                ([' '] ++ (e :: collapseRuns isReSpace false
                  (collapseRuns (fun c => !(isLowerAlnum c) && !(isReSpace c)) false
                    t2)).rdropWhile isGoSpace) := by rw [haveB, haveA]
            _ = (c :: w').takeWhile isLowerAlnum ++
                ([' '] ++ renderWords (wordsAux [] (e :: t2))) := by rw [hih]
            _ = renderWords ((c :: w').takeWhile isLowerAlnum :: wordsAux [] (e :: t2)) := by
                rw [renderWords_cons, if_neg hwne, List.singleton_append]

theorem normalizeTitleList_eq (u : List Char) :
    normalizeTitleList u = renderWords (alnumWords (u.map Char.toLower)) := by
  unfold normalizeTitleList alnumWords
  rw [pipe_trim_norm (((u.dropWhile isGoSpace).rdropWhile isGoSpace).map Char.toLower).length
    _ le_rfl]
  -- it remains to show the word sequences agree
  obtain ⟨suf, hsuf, hdec⟩ := rdropWhile_decomp isGoSpace (u.dropWhile isGoSpace)
  have hpre : ∀ c ∈ u.takeWhile isGoSpace, isGoSpace c = true :=
    fun c hc => List.mem_takeWhile_imp hc
  have hu : u = u.takeWhile isGoSpace ++
      (((u.dropWhile isGoSpace).rdropWhile isGoSpace) ++ suf) := by
    conv_lhs => rw [← List.takeWhile_append_dropWhile isGoSpace u]
    rw [← hdec]
  have hmap : u.map Char.toLower = u.takeWhile isGoSpace ++
      ((((u.dropWhile isGoSpace).rdropWhile isGoSpace).map Char.toLower) ++ suf) := by
    conv_lhs => rw [hu]
    rw [List.map_append, List.map_append,
      map_toLower_of_goSpace _ hpre, map_toLower_of_goSpace _ hsuf]
  rw [hmap,
    words_drop_nonal _ _ (fun c hc => goSpace_not_alnum c (hpre c hc)),
    wordsAux_append_nonal _ suf (fun c hc => goSpace_not_alnum c (hsuf c hc))]

theorem normalizeTitle_eq_render (s : String) :
    normalizeTitle s = ⟨renderWords (titleWords s)⟩ := by
  unfold normalizeTitle titleWords
  rw [normalizeTitleList_eq]

theorem c4_canonical_key_counterexample :
    "a-b".data.filter isLowerAlnum = "ab".data.filter isLowerAlnum ∧
      truncate30m 0 = truncate30m 0 ∧
      buildCanonicalKey (fun s => s) "ab" 0 ≠ buildCanonicalKey (fun s => s) "a-b" 0 := by
  refine ⟨by decide, rfl, by decide⟩

/-- C4 (amended): the canonical key is a pure function of the title word
sequence (its maximal alphanumeric runs after lowercasing) and the 30-minute
bucket: two titles with equal word sequences and start times in the same
bucket give identical keys, and every key is the first 32 hex characters of
the digest of the space-joined words, a bar, and the bucket.  Punctuation
between alphanumerics, however, acts as a word separator, so inserting it
inside a word changes the key. -/
theorem c4_canonical_key :
    (∀ (sha : String → String) (t1 t2 : String) (s1 s2 : Int),
      titleWords t1 = titleWords t2 → truncate30m s1 = truncate30m s2 →
      buildCanonicalKey sha t1 s1 = buildCanonicalKey sha t2 s2) ∧
    (∀ (sha : String → String) (t : String) (s : Int),
      buildCanonicalKey sha t s =
        ⟨(sha (⟨renderWords (titleWords t)⟩ ++ "|" ++
          toString (truncate30m s))).data.take 32⟩) := by
  constructor
  · intro sha t1 t2 s1 s2 ht hs
    unfold buildCanonicalKey
    rw [normalizeTitle_eq_render t1, normalizeTitle_eq_render t2, ht, hs]
  · intro sha t s
    unfold buildCanonicalKey
    rw [normalizeTitle_eq_render t]

theorem c4_canonical_key_witness :
    titleWords "  Lakers  vs. CELTICS!" = titleWords "lakers vs celtics" ∧
      truncate30m 100 = truncate30m 1700 ∧
      buildCanonicalKey (fun s => s) "  Lakers  vs. CELTICS!" 100 =
        buildCanonicalKey (fun s => s) "lakers vs celtics" 1700 :=
  ⟨by decide, by decide,
    c4_canonical_key.1 (fun s => s) "  Lakers  vs. CELTICS!" "lakers vs celtics" 100 1700
      (by decide) (by decide)⟩

end ForecastAgg
